import Mathlib

/-
Verification of the aggregation-and-consistency layer of the fitness PWA
backend (src/src/supabase/functions/server/index.tsx) against its
natural-language specification.

The TypeScript functions are shallowly embedded as Lean definitions:
  - timestamps (JS epoch milliseconds) are Int; UTC calendar dates are Int
    day numbers (days since 1970-01-01, floor division by 86400000, which
    is exactly how two instants land on the same `toISOString` date);
  - nullable values are Option; JS number truthiness (0, null falsy) is
    modelled explicitly where the code relies on it;
  - the relational store is a record of row lists; fallible store writes
    are driven by explicit failure schedules, and thrown JS errors become
    Except.error values.
-/

namespace FitnessPwa

/-! ## Calendar-day arithmetic shared by the streak and weekly-goal code -/

/-- Milliseconds in one UTC day. -/
def msPerDay : Int := 86400000

/-- UTC calendar day of an epoch-millisecond instant: the model of
JS `new Date(t).toISOString().split("T")[0]`.  Two instants produce the
same ISO date string exactly when they have the same floor-quotient by
86400000, so dates are represented by that quotient. -/
def dayOf (t : Int) : Int := Int.fdiv t msPerDay

theorem dayOf_eq_ediv (t : Int) : dayOf t = t / 86400000 :=
  Int.fdiv_eq_ediv t (by decide)

/-! ## formatRepsFallback (server index.tsx lines 175-183)

The source:
  function formatRepsFallback(min, max) {
    if (min && max && min !== max) return `${min}-${max}`;
    if (min) return String(min);
    return "10";
  }
JS truthiness: null/undefined and 0 are falsy, every other number truthy.
The arguments are smallint columns, so Option Int is the value domain. -/

/-- Truthiness of a nullable JS number. -/
def truthyNum : Option Int → Bool
  | none => false
  | some v => v != 0

/-- Embedding of formatRepsFallback.  The three JS returns are rendered
as a match on the two nullable arguments; the first branch can only fire
when both are non-null and truthy, the second when min is non-null and
truthy. -/
def formatRepsFallback (mn mx : Option Int) : String :=
  match mn, mx with
  | some a, some b =>
      if a != 0 && b != 0 && a != b then toString a ++ "-" ++ toString b
      else if a != 0 then toString a
      else "10"
  | some a, none =>
      if a != 0 then toString a
      else "10"
  | none, _ => "10"

/-- The rule exactly as the claim states it: min and max both present and
distinct give "min-max", only min present gives "min", every other case
(including both present and equal) gives "10". -/
def repsFallbackClaim (mn mx : Option Int) : String :=
  match mn, mx with
  | some a, some b => if a != b then toString a ++ "-" ++ toString b else "10"
  | some a, none => toString a
  | none, _ => "10"

/-- The claim amended at the one point the code disagrees: when min and
max are both present and equal the code falls through to the second
branch and returns "min", not "10"; "10" is returned only when min is
absent (or falsy). -/
def repsFallbackAmended (mn mx : Option Int) : String :=
  match mn, mx with
  | some a, some b => if a != b then toString a ++ "-" ++ toString b else toString a
  | some a, none => toString a
  | none, _ => "10"

/-! ## startOfWeek and computeWeeklyGoal (index.tsx lines 130-136, 340-364) -/

/-- Day-number form of startOfWeek: the source truncates the Date to UTC
midnight, reads getUTCDay (0 = Sunday; epoch day 0 is a Thursday, so the
weekday of day d is (d + 4) mod 7 with a non-negative mod, exactly
Int.emod), then subtracts (weekday + 6) mod 7 days. -/
def startOfWeekDay (d : Int) : Int := d - ((d + 4) % 7 + 6) % 7

structure WeeklyGoalStats where
  goal : Int
  completed : Nat
  weekStartMs : Int
deriving Repr, DecidableEq

/-- Embedding of computeWeeklyGoal.  The source reads `new Date()`
internally; following the spec's interface (§6) the instant is the
explicit `now` parameter.  weekEnd is weekStart plus seven UTC days, the
session filter is `performed >= weekStart && performed < weekEnd` on
epoch milliseconds, and the goal falls back to the routine count unless
the profile goal is truthy and positive. -/
def computeWeeklyGoal (trainingFrequencyGoal : Option Int)
    (sessionLogs : List Int) (routineCount : Int) (now : Int) : WeeklyGoalStats :=
  let weekStartDay := startOfWeekDay (dayOf now)
  let weekStartMs := weekStartDay * msPerDay
  let weekEndMs := (weekStartDay + 7) * msPerDay
  let completed := (sessionLogs.filter
    (fun t => decide (weekStartMs ≤ t) && decide (t < weekEndMs))).length
  let goal := match trainingFrequencyGoal with
    | some g => if truthyNum (some g) && decide (0 < g) then g else routineCount
    | none => routineCount
  ⟨goal, completed, weekStartMs⟩

/-! ## computeStreakStats (index.tsx lines 283-338) -/

structure StreakStats where
  currentStreak : Nat
  longestStreak : Nat
  lastWorkoutDate : Option Int
  totalWorkouts : Nat
deriving Repr, DecidableEq

/-- State of the forEach scan over the ascending distinct dates: the
running maximum, the running streak counter, and the previously seen
date (null before the first iteration). -/
structure StreakScan where
  longest : Nat
  counter : Nat
  prev : Option Int
deriving Repr, DecidableEq

/-- One iteration of the forEach: with no previous date the counter
becomes 1; otherwise a difference of exactly one day extends it and any
other difference resets it to 1; the maximum is tracked after each
update.  The source computes Math.round((cur - prev) / 86400000) on two
UTC midnights, which is exactly the difference of the day numbers. -/
def streakStep (s : StreakScan) (d : Int) : StreakScan :=
  match s.prev with
  | none => ⟨max s.longest 1, 1, some d⟩
  | some p =>
      let counter := if d - p = 1 then s.counter + 1 else 1
      ⟨max s.longest counter, counter, some d⟩

/-- The currentStreak loop over the tail of the descending date list:
each iteration first decrements the expected date, then either counts a
match or breaks at the first mismatch. -/
def walkBack : Int → List Int → Nat
  | _, [] => 0
  | e, d :: rest => if d = e - 1 then 1 + walkBack (e - 1) rest else 0

/-- The distinct session dates in ascending order.  The source builds a
JS Set of ISO date strings and sorts a copy lexicographically, which for
date strings is chronological order; dedup has the same members as the
Set and sorting a duplicate-free list is determined by its member set,
so the result coincides. -/
def sortedDates (sessionLogs : List Int) : List Int :=
  List.insertionSort (fun a b => a ≤ b) ((sessionLogs.map dayOf).dedup)

/-- The longestStreak fold, started from longest = 0, counter = 0 and no
previous date, exactly as in the source. -/
def longestOf (asc : List Int) : Nat :=
  (asc.foldl streakStep ⟨0, 0, none⟩).longest

/-- Embedding of computeStreakStats.  The source's `new Date()` "today"
becomes the explicit today parameter (a day number, as the spec's tests
must pin a fixed now); session instants are epoch milliseconds. -/
def computeStreakStats (today : Int) (sessionLogs : List Int) : StreakStats :=
  if sessionLogs.isEmpty then ⟨0, 0, none, 0⟩
  else
    let uniqueDatesAsc := sortedDates sessionLogs
    let uniqueDatesDesc := uniqueDatesAsc.reverse
    let longestStreak := longestOf uniqueDatesAsc
    let currentStreak :=
      match uniqueDatesDesc with
      | [] => 0
      | d :: rest => if d = today then 1 + walkBack today rest else 0
    ⟨currentStreak, longestStreak, uniqueDatesDesc.head?, sessionLogs.length⟩

/-- A run of k consecutive calendar days starting at day a, with every
one of the k days present among the given distinct dates. -/
def runIn (days : List Int) (a : Int) (k : Nat) : Prop :=
  ∀ j : Nat, j < k → a + (j : Int) ∈ days

/-- The k consecutive days starting at a, as a list. -/
def runList (a : Int) (k : Nat) : List Int :=
  (List.range k).map (fun j : Nat => a + (j : Int))

/-- The maximum counter value produced by the remainder of the scan,
given that the previous date is p and the running counter is c. -/
def goStreak (p : Int) (c : Nat) : List Int → Nat
  | [] => 0
  | d :: rest =>
      let c2 := if d - p = 1 then c + 1 else 1
      max c2 (goStreak d c2 rest)

/-! ## resolveExerciseCatalogId (index.tsx lines 827-877)

The name lookup is supabase-js .eq("pt_id", ptId).ilike("name",
trimmedName).maybeSingle(): the trimmed name reaches Postgres ILIKE as
a pattern, so percent and underscore act as wildcards and comparison is
case-insensitive (escape sequences are not modelled).  maybeSingle
yields the row when exactly one row matches, null when none does, and
an error (code PGRST116, which the source deliberately ignores) when
several match — in that case `existing` is null and the source falls
through to the insert.  The insert fails exactly when the unique index
exercises_catalog_unique_name_per_pt on (pt_id, lower(name)) is
violated, and the source then throws
"Failed to create exercise in catalog". -/

structure CatalogRow where
  id : Nat
  ptId : String
  name : String
  instructionNotes : Option String
  defaultRestSeconds : Option Int
deriving Repr, DecidableEq

structure CatalogState where
  rows : List CatalogRow
  nextId : Nat
deriving Repr, DecidableEq

structure ExerciseRef where
  catalogId : Option Nat
  name : String
  notes : Option String
  defaultRestSeconds : Option Int
deriving Repr, DecidableEq

/-- Lowercasing as Postgres lower() on ASCII names: String.toLower,
written with a structural map so that proofs can evaluate it. -/
def sqlLower (s : String) : String := ⟨s.data.map Char.toLower⟩

/-- JS String.prototype.trim: whitespace stripped from both ends,
written structurally over the character list. -/
def jsTrim (s : String) : String :=
  ⟨((s.data.dropWhile Char.isWhitespace).reverse.dropWhile Char.isWhitespace).reverse⟩

/-- Helper for the percent wildcard: try the continuation on every
suffix of the string. -/
def tryAllSuffixes (f : List Char → Bool) : List Char → Bool
  | [] => f []
  | c :: s2 => f (c :: s2) || tryAllSuffixes f s2

/-- SQL LIKE pattern matching over characters: percent matches any
sequence (tried on every suffix), underscore matches any single
character, and any other pattern character matches exactly itself. -/
def likeMatch : List Char → List Char → Bool
  | [], s => s.isEmpty
  | p :: ps, s =>
      if p = '%' then tryAllSuffixes (fun s2 => likeMatch ps s2) s
      else
        match s with
        | [] => false
        | c :: s2 => (if p = '_' then true else p == c) && likeMatch ps s2

/-- Postgres ILIKE: LIKE after lowering both sides. -/
def ilikeMatches (pat s : String) : Bool :=
  likeMatch (sqlLower pat).toList (sqlLower s).toList

/-- The rows selected by .eq("pt_id", ptId).ilike("name", pat). -/
def lookupByName (rows : List CatalogRow) (ptId pat : String) : List CatalogRow :=
  rows.filter (fun r => r.ptId == ptId && ilikeMatches pat r.name)

/-- Whether inserting (ptId, name) violates the unique index on
(pt_id, lower(name)). -/
def nameConflict (rows : List CatalogRow) (ptId name : String) : Bool :=
  rows.any (fun r => r.ptId == ptId && sqlLower r.name == sqlLower name)

/-- The name-resolution tail of resolveExerciseCatalogId: ILIKE lookup,
reuse on a unique hit, otherwise insert, throwing on a unique-index
violation.  `insertAgainst` is the row set the insert is validated
against and extended from: sequentially it is the state's own rows; the
raced variant adds rows committed by a concurrent writer between the
lookup and the insert. -/
def resolveByName (st : CatalogState) (insertAgainst : List CatalogRow)
    (ptId : String) (ex : ExerciseRef) : Except String (Nat × CatalogState) :=
  let trimmedName := jsTrim ex.name
  match lookupByName st.rows ptId trimmedName with
  | [r] => .ok (r.id, st)
  | _ =>
      if nameConflict insertAgainst ptId trimmedName then
        .error "Failed to create exercise in catalog"
      else
        .ok (st.nextId,
          ⟨insertAgainst ++ [⟨st.nextId, ptId, trimmedName, ex.notes, ex.defaultRestSeconds⟩],
            st.nextId + 1⟩)

/-- Embedding of resolveExerciseCatalogId in the sequential case (no
concurrent writer): a truthy catalogId that resolves to a row owned by
this PT is returned directly; otherwise resolution falls through to the
name path. -/
def resolveExerciseCatalogId (st : CatalogState) (ptId : String) (ex : ExerciseRef) :
    Except String (Nat × CatalogState) :=
  match ex.catalogId with
  | some cid =>
      if st.rows.any (fun r => r.id == cid && r.ptId == ptId) then .ok (cid, st)
      else resolveByName st st.rows ptId ex
  | none => resolveByName st st.rows ptId ex

/-- resolveExerciseCatalogId under the §4.4 race: `interleaved` rows are
committed by another writer after this request's name lookup and before
its insert, so the lookup sees only st.rows while the insert's unique
check runs against st.rows ++ interleaved. -/
def resolveRaced (st : CatalogState) (interleaved : List CatalogRow)
    (ptId : String) (ex : ExerciseRef) : Except String (Nat × CatalogState) :=
  match ex.catalogId with
  | some cid =>
      if st.rows.any (fun r => r.id == cid && r.ptId == ptId) then .ok (cid, st)
      else resolveByName st (st.rows ++ interleaved) ptId ex
  | none => resolveByName st (st.rows ++ interleaved) ptId ex

/-- The unique-index invariant of exercises_catalog: no two rows share
(pt_id, lower(name)). -/
def catalogWF (rows : List CatalogRow) : Prop :=
  rows.Pairwise (fun r1 r2 => ¬(r1.ptId = r2.ptId ∧ sqlLower r1.name = sqlLower r2.name))

/-! ## upsertRoutine (index.tsx lines 879-975)

CREATE (routineId absent) inserts the routine row and throws "Routine
creation failed" on error; UPDATE (routineId present) updates the
routine row scoped by (id, pt_id), throws "Routine update failed" on
error, then deletes all routine_exercises of the routine (their sets
cascade via the FK).  The child loop resolves each exercise through the
catalog (a thrown resolution error propagates), inserts the exercise
row at the current position — on error it logs and `continue`s without
advancing position — then bulk-inserts the non-empty set list with
1-based set numbers, logging and ignoring a set-insert error; the call
returns the routineId.  Store-write failures are external, so they are
supplied as an explicit failure schedule. -/

structure RoutineRow where
  id : Nat
  ptId : String
  clientId : String
  routineName : String
deriving Repr, DecidableEq

structure RoutineExerciseRow where
  id : Nat
  routineId : Nat
  exerciseId : Nat
  position : Nat
  notes : Option String
deriving Repr, DecidableEq

/-- One submitted set, with the JS union-typed reps/rest/weight fields
already coerced the way the source's payload mapping does (string rep
ranges containing "-" versus numeric reps); the claims under proof do
not depend on these values. -/
structure SetInput where
  repRange : Option String
  reps : Option Int
  rest : Option Int
  weight : Option Int
deriving Repr, DecidableEq

structure RoutineExerciseSetRow where
  routineExerciseId : Nat
  setNumber : Nat
  targetRepRange : Option String
  targetReps : Option Int
  targetRestSeconds : Option Int
  targetWeight : Option Int
deriving Repr, DecidableEq

structure UpsertExercise where
  name : String
  notes : Option String
  catalogId : Option Nat
  defaultRestSeconds : Option Int
  sets : List SetInput
deriving Repr, DecidableEq

structure UpsertParams where
  routineId : Option Nat
  ptId : String
  clientId : String
  name : String
  exercises : List UpsertExercise
deriving Repr, DecidableEq

/-- The relational store touched by upsertRoutine. -/
structure Store where
  catalog : CatalogState
  routines : List RoutineRow
  routineExercises : List RoutineExerciseRow
  routineSets : List RoutineExerciseSetRow
  nextId : Nat
deriving Repr, DecidableEq

/-- Which store writes fail: the top-level routine insert/update, and
the exercise-row and set-batch inserts per submission index. -/
structure FailureModel where
  routineWriteFails : Bool
  exerciseInsertFails : Nat → Bool
  setsInsertFails : Nat → Bool

def toExerciseRef (ex : UpsertExercise) : ExerciseRef :=
  ⟨ex.catalogId, ex.name, ex.notes, ex.defaultRestSeconds⟩

/-- The bulk set payload: setNumber is the 1-based submission index. -/
def setsPayload (rexId : Nat) : Nat → List SetInput → List RoutineExerciseSetRow
  | _, [] => []
  | n, s :: rest =>
      ⟨rexId, n + 1, s.repRange, s.reps, s.rest, s.weight⟩ :: setsPayload rexId (n + 1) rest

/-- The per-exercise loop of upsertRoutine: resolve the catalog id
(propagating a thrown error together with the store as written so far),
insert the exercise row unless that insert fails (continue, position
unchanged), insert its sets unless empty or failing (logged, ignored),
advance the position only after a successful exercise insert. -/
def insertChildren (fm : FailureModel) (ptId : String) (rid : Nat) :
    List UpsertExercise → Nat → Nat → Store → Except String Unit × Store
  | [], _, _, st => (.ok (), st)
  | ex :: rest, idx, pos, st =>
      match resolveExerciseCatalogId st.catalog ptId (toExerciseRef ex) with
      | .error e => (.error e, st)
      | .ok (exId, cat2) =>
          let st1 : Store := { st with catalog := cat2 }
          if fm.exerciseInsertFails idx then
            insertChildren fm ptId rid rest (idx + 1) pos st1
          else
            let rexId := st1.nextId
            let st2 : Store := { st1 with
              routineExercises := st1.routineExercises ++ [⟨rexId, rid, exId, pos, ex.notes⟩],
              nextId := st1.nextId + 1 }
            let st3 : Store := { st2 with routineSets :=
              (if ex.sets.isEmpty then st2.routineSets
                else if fm.setsInsertFails idx then st2.routineSets
                else st2.routineSets ++ setsPayload rexId 0 ex.sets) }
            insertChildren fm ptId rid rest (idx + 1) (pos + 1) st3

/-- Embedding of upsertRoutine.  The result carries the store as it
stands when the call returns or throws. -/
def upsertRoutine (fm : FailureModel) (st : Store) (params : UpsertParams) :
    Except String Nat × Store :=
  match params.routineId with
  | none =>
      if fm.routineWriteFails then (.error "Routine creation failed", st)
      else
        let rid := st.nextId
        let st1 : Store := { st with
          routines := st.routines ++ [⟨rid, params.ptId, params.clientId, params.name⟩],
          nextId := st.nextId + 1 }
        match insertChildren fm params.ptId rid params.exercises 0 0 st1 with
        | (.error e, st2) => (.error e, st2)
        | (.ok _, st2) => (.ok rid, st2)
  | some rid =>
      if fm.routineWriteFails then (.error "Routine update failed", st)
      else
        let st1 : Store := { st with
          routines := st.routines.map (fun r =>
            if r.id == rid && r.ptId == params.ptId then
              ⟨r.id, params.ptId, params.clientId, params.name⟩
            else r) }
        let deleted := st1.routineExercises.filter (fun e => e.routineId == rid)
        let st2 : Store := { st1 with
          routineExercises := st1.routineExercises.filter (fun e => !(e.routineId == rid)),
          routineSets := st1.routineSets.filter (fun s2 =>
            !(deleted.any (fun e => e.id == s2.routineExerciseId))) }
        match insertChildren fm params.ptId rid params.exercises 0 0 st2 with
        | (.error e, st3) => (.error e, st3)
        | (.ok _, st3) => (.ok rid, st3)

/-- The exercise resolves through the catalogId fast path: its
catalogId is present and owned by this PT. -/
def catalogHit (cat : CatalogState) (ptId : String) (ex : UpsertExercise) : Prop :=
  ∃ cid, ex.catalogId = some cid ∧
    (cat.rows.any (fun r => r.id == cid && r.ptId == ptId)) = true

/-- The exercise rows the child loop is expected to append: one row per
exercise whose insert succeeds, carrying its resolved catalog id, with
positions counted from pos over the successful inserts and fresh ids
counted from nid. -/
def plannedRows (fm : FailureModel) (rid : Nat) :
    List UpsertExercise → Nat → Nat → Nat → List RoutineExerciseRow
  | [], _, _, _ => []
  | ex :: rest, idx, pos, nid =>
      if fm.exerciseInsertFails idx then plannedRows fm rid rest (idx + 1) pos nid
      else ⟨nid, rid, ex.catalogId.getD 0, pos, ex.notes⟩ ::
        plannedRows fm rid rest (idx + 1) (pos + 1) (nid + 1)

/-! ## Health-alert correlation (index.tsx lines 738-793)

The upcoming-session query keeps the PT's events with event_type
"session" and now <= start_at <= now + 15 minutes (gte/lte: a closed
interval); the health-log query returns the PT's clients' logs ordered
by logged_at descending; grouping into the per-client Map preserves
that order, and the active issue is the first ACUTE or LINGERING entry
of the client's list; every filtered event whose client_id is present
in the active-issue map produces exactly one alert. -/

structure HealthLog where
  id : Nat
  clientId : String
  injuryTitle : String
  details : Option String
  status : String
  loggedAt : Int
  createdByPt : Option String
deriving Repr, DecidableEq

structure CalendarEvent where
  id : Nat
  title : String
  clientId : Option String
  startAt : Int
  endAt : Int
  eventType : String
deriving Repr, DecidableEq

structure HealthAlert where
  eventId : Nat
  clientId : String
  clientName : String
  sessionStart : Int
  sessionEnd : Int
  injuryTitle : String
  status : String
deriving Repr, DecidableEq

/-- The predicate of lines 758-759. -/
def isActiveLog (l : HealthLog) : Bool :=
  l.status == "ACUTE" || l.status == "LINGERING"

/-- A client's group in healthLogsByClient: grouping by Map insertion
preserves the (most-recent-first) order of the queried list, so the
group is the filter. -/
def clientLogs (healthLogs : List HealthLog) (cid : String) : List HealthLog :=
  healthLogs.filter (fun l => l.clientId == cid)

/-- activeIssueByClient: the first ACUTE/LINGERING entry of the
client's most-recent-first log list. -/
def activeIssueByClient (healthLogs : List HealthLog) (cid : String) : Option HealthLog :=
  (clientLogs healthLogs cid).find? isActiveLog

/-- The upcoming-session query filter. -/
def upcomingSessions (events : List CalendarEvent) (now : Int) : List CalendarEvent :=
  events.filter (fun e => e.eventType == "session"
    && decide (now ≤ e.startAt) && decide (e.startAt ≤ now + 15 * 60 * 1000))

/-- clientIdToProfile lookup of the alert's client name, with the
source's "Client" fallback. -/
def clientNameOf (profiles : List (String × String)) (cid : String) : String :=
  match profiles.find? (fun p => p.1 == cid) with
  | some p => p.2
  | none => "Client"

/-- The alert an individual upcoming session contributes: none without
a linked client or without an active issue for that client. -/
def alertFor (healthLogs : List HealthLog) (profiles : List (String × String))
    (e : CalendarEvent) : Option HealthAlert :=
  match e.clientId with
  | none => none
  | some cid =>
      match activeIssueByClient healthLogs cid with
      | none => none
      | some issue =>
          some ⟨e.id, cid, clientNameOf profiles cid, e.startAt, e.endAt,
            issue.injuryTitle, issue.status⟩

/-- The alerts array of lines 778-793: the source's filter-then-map
over upcoming sessions, written as one filterMap. -/
def correlateHealthAlerts (events : List CalendarEvent) (healthLogs : List HealthLog)
    (profiles : List (String × String)) (now : Int) : List HealthAlert :=
  (upcomingSessions events now).filterMap (alertFor healthLogs profiles)

end FitnessPwa

namespace FitnessPwa

/-! ## Helper lemmas about runs and the streak scan -/

theorem runIn_mono {days : List Int} {a : Int} {k k' : Nat} (h : k' ≤ k)
    (hr : runIn days a k) : runIn days a k' :=
  fun j hj => hr j (lt_of_lt_of_le hj h)

theorem runList_nodup (a : Int) (k : Nat) : (runList a k).Nodup := by
  refine List.Nodup.map ?_ (List.nodup_range k)
  intro x y hxy
  have h2 : a + (x : Int) = a + (y : Int) := hxy
  omega

theorem runList_length (a : Int) (k : Nat) : (runList a k).length = k := by
  simp [runList]

/-- A run of k consecutive days all present in a list of length n forces
k ≤ n, because the k days are pairwise distinct. -/
theorem run_length_le {l : List Int} {a : Int} {k : Nat}
    (hsub : ∀ j : Nat, j < k → a + (j : Int) ∈ l) : k ≤ l.length := by
  have h1 : runList a k ⊆ l := by
    intro x hx
    simp only [runList, List.mem_map, List.mem_range] at hx
    obtain ⟨j, hj, rfl⟩ := hx
    exact hsub j hj
  calc k = (runList a k).length := (runList_length a k).symm
    _ ≤ l.length := (List.subperm_of_subset (runList_nodup a k) h1).length_le

theorem foldl_streakStep (l : List Int) (L c : Nat) (p : Int) :
    (l.foldl streakStep ⟨L, c, some p⟩).longest = max L (goStreak p c l) := by
  induction l generalizing L c p with
  | nil => simp [goStreak]
  | cons d rest ih =>
      by_cases h : d - p = 1 <;>
        simp only [List.foldl_cons, streakStep, goStreak, h, if_true, if_false, ih] <;>
        omega

theorem longestOf_cons (d : Int) (rest : List Int) :
    longestOf (d :: rest) = max 1 (goStreak d 1 rest) := by
  simp only [longestOf, List.foldl_cons, streakStep]
  rw [foldl_streakStep]
  omega

theorem sortedDates_pairwise (logs : List Int) :
    (sortedDates logs).Pairwise (fun a b : Int => a < b) := by
  have h1 : (sortedDates logs).Sorted (fun a b : Int => a ≤ b) :=
    List.sorted_insertionSort _ _
  have h2 : (sortedDates logs).Nodup :=
    (List.perm_insertionSort _ _).nodup_iff.mpr (List.nodup_dedup _)
  exact List.Sorted.lt_of_le h1 h2

theorem sortedDates_mem (logs : List Int) (x : Int) :
    x ∈ sortedDates logs ↔ x ∈ (logs.map dayOf).dedup :=
  (List.perm_insertionSort _ _).mem_iff

theorem sortedDates_ne_nil {logs : List Int} (h : logs ≠ []) :
    sortedDates logs ≠ [] := by
  intro hc
  have hp : (sortedDates logs).Perm ((logs.map dayOf).dedup) :=
    List.perm_insertionSort _ _
  rw [hc] at hp
  have h2 : (logs.map dayOf).dedup = [] := hp.symm.eq_nil
  rw [List.dedup_eq_nil, List.map_eq_nil_iff] at h2
  exact h h2

/-- Every counter value reached by the scan corresponds to a run of
consecutive days actually present: given that the days already credited
to the counter (p, p-1, …) are present, some run as long as the rest of
the scan's maximum exists. -/
theorem goStreak_runIn : ∀ (l : List Int) (days : List Int) (p : Int) (c : Nat),
    (∀ x ∈ l, x ∈ days) →
    (∀ j : Nat, j < c → p - (j : Int) ∈ days) →
    ∃ a, runIn days a (goStreak p c l) := by
  intro l
  induction l with
  | nil =>
      intro days p c _ _
      refine ⟨0, ?_⟩
      intro j hj
      simp [goStreak] at hj
  | cons d rest ih =>
      intro days p c hsub hcredit
      have hd : d ∈ days := hsub d (List.mem_cons_self d rest)
      have hsub' : ∀ x ∈ rest, x ∈ days := fun x hx => hsub x (List.mem_cons_of_mem d hx)
      by_cases h : d - p = 1
      · have hcredit' : ∀ j : Nat, j < c + 1 → d - (j : Int) ∈ days := by
          intro j hj
          cases j with
          | zero => simpa using hd
          | succ j' =>
              have heq : d - ((j' + 1 : Nat) : Int) = p - (j' : Int) := by push_cast; omega
              rw [heq]
              exact hcredit j' (by omega)
        obtain ⟨a, ha⟩ := ih days d (c + 1) hsub' hcredit'
        simp only [goStreak]
        rw [if_pos h]
        rcases Nat.le_total (goStreak d (c + 1) rest) (c + 1) with hle | hle
        · refine ⟨d - (c : Int), ?_⟩
          rw [Nat.max_eq_left hle]
          intro j hj
          have h1 : (c - j : Nat) < c + 1 := by omega
          have h2 := hcredit' (c - j) h1
          have h3 : d - ((c - j : Nat) : Int) = d - (c : Int) + (j : Int) := by omega
          rwa [h3] at h2
        · refine ⟨a, ?_⟩
          rw [Nat.max_eq_right hle]
          exact ha
      · have hcredit1 : ∀ j : Nat, j < 1 → d - (j : Int) ∈ days := by
          intro j hj
          have hj0 : j = 0 := by omega
          subst hj0; simpa using hd
        obtain ⟨a, ha⟩ := ih days d 1 hsub' hcredit1
        simp only [goStreak]
        rw [if_neg h]
        rcases Nat.le_total (goStreak d 1 rest) 1 with hle | hle
        · refine ⟨d, ?_⟩
          rw [Nat.max_eq_left hle]
          intro j hj
          have hj0 : j = 0 := by omega
          subst hj0; simpa using hd
        · refine ⟨a, ?_⟩
          rw [Nat.max_eq_right hle]
          exact ha

/-- If a run of k further consecutive days continues directly after the
previous date p, the scan's maximum from here on reaches at least the
current counter plus k. -/
theorem goStreak_ge_attached : ∀ (l : List Int) (p : Int) (c k : Nat),
    l.Pairwise (fun u v : Int => u < v) →
    (∀ x ∈ l, p < x) →
    0 < k →
    (∀ j : Nat, j < k → p + 1 + (j : Int) ∈ l) →
    c + k ≤ goStreak p c l := by
  intro l
  induction l with
  | nil =>
      intro p c k _ _ hk hrun
      have := hrun 0 hk
      simp at this
  | cons d rest ih =>
      intro p c k hsorted hgt hk hrun
      have hd : d = p + 1 := by
        have h0 : p + 1 ∈ d :: rest := by simpa using hrun 0 hk
        rcases List.mem_cons.mp h0 with h0 | h0
        · omega
        · have h1 : d < p + 1 := List.rel_of_pairwise_cons hsorted h0
          have h2 : p < d := hgt d (List.mem_cons_self d rest)
          omega
      simp only [goStreak]
      rw [if_pos (by omega : d - p = 1)]
      by_cases hk1 : k = 1
      · subst hk1
        exact le_trans (by omega) (le_max_left (c + 1) _)
      · have hrun' : ∀ j : Nat, j < k - 1 → d + 1 + (j : Int) ∈ rest := by
          intro j hj
          have hm := hrun (j + 1) (by omega)
          have heq : p + 1 + ((j + 1 : Nat) : Int) = d + 1 + (j : Int) := by
            push_cast; omega
          rw [heq] at hm
          rcases List.mem_cons.mp hm with he | he
          · exfalso; omega
          · exact he
        have hgt' : ∀ x ∈ rest, d < x := fun x hx => List.rel_of_pairwise_cons hsorted hx
        have h2 := ih d (c + 1) (k - 1) hsorted.of_cons hgt' (by omega) hrun'
        calc c + k ≤ (c + 1) + (k - 1) := by omega
          _ ≤ goStreak d (c + 1) rest := h2
          _ ≤ max (c + 1) (goStreak d (c + 1) rest) := le_max_right _ _

/-- Any run of consecutive days contained in the remaining (strictly
ascending) scan input bounds the scan's maximum from below. -/
theorem goStreak_ge_run : ∀ (l : List Int) (p a : Int) (c k : Nat),
    l.Pairwise (fun u v : Int => u < v) →
    0 < k →
    (∀ j : Nat, j < k → a + (j : Int) ∈ l) →
    k ≤ goStreak p c l := by
  intro l
  induction l with
  | nil =>
      intro p a c k _ hk hrun
      have := hrun 0 hk
      simp at this
  | cons d rest ih =>
      intro p a c k hsorted hk hrun
      have ha0 : a ∈ d :: rest := by simpa using hrun 0 hk
      simp only [goStreak]
      have hc2 : 1 ≤ (if d - p = 1 then c + 1 else 1) := by split <;> omega
      by_cases had : a = d
      · by_cases hk1 : k = 1
        · subst hk1
          exact le_trans hc2 (le_max_left _ _)
        · have hrun' : ∀ j : Nat, j < k - 1 → d + 1 + (j : Int) ∈ rest := by
            intro j hj
            have hm := hrun (j + 1) (by omega)
            have heq : a + ((j + 1 : Nat) : Int) = d + 1 + (j : Int) := by
              push_cast; omega
            rw [heq] at hm
            rcases List.mem_cons.mp hm with he | he
            · exfalso; omega
            · exact he
          have hgt' : ∀ x ∈ rest, d < x := fun x hx => List.rel_of_pairwise_cons hsorted hx
          have h2 := goStreak_ge_attached rest d (if d - p = 1 then c + 1 else 1) (k - 1)
            hsorted.of_cons hgt' (by omega) hrun'
          calc k ≤ (if d - p = 1 then c + 1 else 1) + (k - 1) := by omega
            _ ≤ goStreak d (if d - p = 1 then c + 1 else 1) rest := h2
            _ ≤ max (if d - p = 1 then c + 1 else 1)
                  (goStreak d (if d - p = 1 then c + 1 else 1) rest) := le_max_right _ _
      · have ha : a ∈ rest := by
          rcases List.mem_cons.mp ha0 with h0 | h0
          · exact absurd h0 had
          · exact h0
        have hda : d < a := List.rel_of_pairwise_cons hsorted ha
        have hrun' : ∀ j : Nat, j < k → a + (j : Int) ∈ rest := by
          intro j hj
          rcases List.mem_cons.mp (hrun j hj) with he | he
          · exfalso; omega
          · exact he
        exact le_trans (ih d a (if d - p = 1 then c + 1 else 1) k hsorted.of_cons hk hrun')
          (le_max_right _ _)

/-- Lower bound for the whole fold: any nonempty run of consecutive days
present in the strictly ascending date list bounds longestStreak. -/
theorem longestOf_ge_run (asc : List Int)
    (hsorted : asc.Pairwise (fun u v : Int => u < v))
    (a : Int) (k : Nat) (hk : 0 < k)
    (hrun : ∀ j : Nat, j < k → a + (j : Int) ∈ asc) :
    k ≤ longestOf asc := by
  cases asc with
  | nil =>
      have := hrun 0 hk
      simp at this
  | cons d rest =>
      rw [longestOf_cons]
      by_cases had : a = d
      · by_cases hk1 : k = 1
        · subst hk1
          exact le_max_left 1 _
        · have hrun' : ∀ j : Nat, j < k - 1 → d + 1 + (j : Int) ∈ rest := by
            intro j hj
            have hm := hrun (j + 1) (by omega)
            have heq : a + ((j + 1 : Nat) : Int) = d + 1 + (j : Int) := by
              push_cast; omega
            rw [heq] at hm
            rcases List.mem_cons.mp hm with he | he
            · exfalso; omega
            · exact he
          have hgt' : ∀ x ∈ rest, d < x := fun x hx => List.rel_of_pairwise_cons hsorted hx
          have h2 := goStreak_ge_attached rest d 1 (k - 1)
            hsorted.of_cons hgt' (by omega) hrun'
          calc k ≤ 1 + (k - 1) := by omega
            _ ≤ goStreak d 1 rest := h2
            _ ≤ max 1 (goStreak d 1 rest) := le_max_right _ _
      · have ha : a ∈ rest := by
          rcases List.mem_cons.mp (by simpa using hrun 0 hk : a ∈ d :: rest) with h0 | h0
          · exact absurd h0 had
          · exact h0
        have hda : d < a := List.rel_of_pairwise_cons hsorted ha
        have hrun' : ∀ j : Nat, j < k → a + (j : Int) ∈ rest := by
          intro j hj
          rcases List.mem_cons.mp (hrun j hj) with he | he
          · exfalso; omega
          · exact he
        exact le_trans (goStreak_ge_run rest d a 1 k hsorted.of_cons hk hrun')
          (le_max_right _ _)

/-- Upper bound for the whole fold: longestStreak of a nonempty date
list is at least 1 and is realized by an actual run of consecutive days
(membership taken in any list containing the dates). -/
theorem longestOf_runIn (days asc : List Int)
    (hsub : ∀ x ∈ asc, x ∈ days) (hne : asc ≠ []) :
    1 ≤ longestOf asc ∧ ∃ a, runIn days a (longestOf asc) := by
  cases asc with
  | nil => exact absurd rfl hne
  | cons d rest =>
      rw [longestOf_cons]
      have hd : d ∈ days := hsub d (List.mem_cons_self d rest)
      refine ⟨le_max_left 1 _, ?_⟩
      have hcredit : ∀ j : Nat, j < 1 → d - (j : Int) ∈ days := by
        intro j hj
        have hj0 : j = 0 := by omega
        subst hj0; simpa using hd
      obtain ⟨a, ha⟩ := goStreak_runIn rest days d 1
        (fun x hx => hsub x (List.mem_cons_of_mem d hx)) hcredit
      rcases Nat.le_total (goStreak d 1 rest) 1 with hle | hle
      · refine ⟨d, ?_⟩
        rw [Nat.max_eq_left hle]
        intro j hj
        have hj0 : j = 0 := by omega
        subst hj0; simpa using hd
      · refine ⟨a, ?_⟩
        rw [Nat.max_eq_right hle]
        exact ha

/-- The backward walk over the strictly descending tail counts exactly
the unbroken chain of days below its start: all counted days are
present and the next day down is missing. -/
theorem walkBack_chain : ∀ (rest : List Int) (d : Int),
    (d :: rest).Pairwise (fun u v : Int => v < u) →
    ((∀ j : Nat, j < 1 + walkBack d rest → d - (j : Int) ∈ d :: rest) ∧
      d - ((1 + walkBack d rest : Nat) : Int) ∉ d :: rest) := by
  intro rest
  induction rest with
  | nil =>
      intro d _
      constructor
      · intro j hj
        have hj0 : j = 0 := by simp [walkBack] at hj; omega
        subst hj0; simp
      · simp [walkBack]
  | cons e rest' ih =>
      intro d hp
      have hde : e < d := List.rel_of_pairwise_cons hp (List.mem_cons_self e rest')
      by_cases he : e = d - 1
      · have hwb : walkBack d (e :: rest') = 1 + walkBack (d - 1) rest' := by
          simp [walkBack, he]
        have hp' : ((d - 1) :: rest').Pairwise (fun u v : Int => v < u) :=
          he ▸ hp.of_cons
        obtain ⟨ih1, ih2⟩ := ih (d - 1) hp'
        rw [hwb]
        constructor
        · intro j hj
          cases j with
          | zero => simp
          | succ j' =>
              have hj' : j' < 1 + walkBack (d - 1) rest' := by omega
              have hm := ih1 j' hj'
              have heq : d - ((j' + 1 : Nat) : Int) = (d - 1) - (j' : Int) := by
                push_cast; omega
              rw [heq, he]
              exact List.mem_cons_of_mem d hm
        · intro hmem
          have heq : d - ((1 + (1 + walkBack (d - 1) rest') : Nat) : Int)
              = (d - 1) - ((1 + walkBack (d - 1) rest' : Nat) : Int) := by
            push_cast; omega
          rw [heq] at hmem
          rcases List.mem_cons.mp hmem with h0 | h0
          · omega
          · exact ih2 (he ▸ h0)
      · have hwb : walkBack d (e :: rest') = 0 := by simp [walkBack, he]
        rw [hwb]
        constructor
        · intro j hj
          have hj0 : j = 0 := by omega
          subst hj0; simp
        · intro hmem
          have h1 : d - ((1 + 0 : Nat) : Int) = d - 1 := by push_cast; omega
          rw [h1] at hmem
          rcases List.mem_cons.mp hmem with h0 | h0
          · omega
          rcases List.mem_cons.mp h0 with h0 | h0
          · exact he h0.symm
          · have h3 : d - 1 < e := List.rel_of_pairwise_cons hp.of_cons h0
            omega

/-- A nonempty list linked by one-day steps enumerates exactly the
consecutive days from its head. -/
theorem chain_mem : ∀ (xs : List Int) (x0 : Int),
    List.Chain' (fun u v : Int => v - u = 1) (x0 :: xs) →
    ∀ y : Int, (y ∈ x0 :: xs ↔ ∃ j : Nat, j < xs.length + 1 ∧ y = x0 + (j : Int)) := by
  intro xs
  induction xs with
  | nil =>
      intro x0 _ y
      simp only [List.mem_singleton, List.length_nil]
      constructor
      · rintro rfl
        exact ⟨0, by omega, by simp⟩
      · rintro ⟨j, hj, rfl⟩
        have hj0 : j = 0 := by omega
        subst hj0; simp
  | cons x1 xs' ih =>
      intro x0 hch y
      obtain ⟨hstep, hch'⟩ := List.chain'_cons.mp hch
      have hx1 : x1 = x0 + 1 := by omega
      have ihy := ih x1 hch' y
      constructor
      · intro hy
        rcases List.mem_cons.mp hy with rfl | hy'
        · exact ⟨0, by omega, by simp⟩
        · obtain ⟨j, hj, rfl⟩ := ihy.mp hy'
          refine ⟨j + 1, ?_, ?_⟩
          · simp at hj ⊢; omega
          · push_cast; omega
      · rintro ⟨j, hj, rfl⟩
        cases j with
        | zero => simp
        | succ j' =>
            refine List.mem_cons_of_mem _ (ihy.mpr ⟨j', ?_, ?_⟩)
            · simp only [List.length_cons] at hj ⊢; omega
            · push_cast; omega

/-- The last element of a nonempty one-day chain is its head plus the
number of steps. -/
theorem chain_getLast : ∀ (xs : List Int) (x0 : Int),
    List.Chain' (fun u v : Int => v - u = 1) (x0 :: xs) →
    ∀ hne : x0 :: xs ≠ [],
    (x0 :: xs).getLast hne = x0 + (xs.length : Int) := by
  intro xs
  induction xs with
  | nil => intro x0 _ _; simp
  | cons x1 xs' ih =>
      intro x0 hch hne
      obtain ⟨hstep, hch'⟩ := List.chain'_cons.mp hch
      rw [List.getLast_cons (by simp : x1 :: xs' ≠ [])]
      rw [ih x1 hch' (by simp)]
      simp only [List.length_cons]
      push_cast; omega

/-- The descending date list is strictly descending. -/
theorem sortedDates_reverse_pairwise (logs : List Int) :
    (sortedDates logs).reverse.Pairwise (fun u v : Int => v < u) :=
  List.pairwise_reverse.mpr (sortedDates_pairwise logs)

theorem sortedDates_reverse_mem (logs : List Int) (x : Int) :
    x ∈ (sortedDates logs).reverse ↔ x ∈ (logs.map dayOf).dedup := by
  rw [List.mem_reverse]
  exact sortedDates_mem logs x

/-- Normal form of computeStreakStats on a nonempty session list. -/
theorem computeStreak_eq (today : Int) (logs : List Int) (h : logs ≠ []) :
    ∃ dh dt, (sortedDates logs).reverse = dh :: dt ∧
      computeStreakStats today logs =
        ⟨if dh = today then 1 + walkBack today dt else 0,
          longestOf (sortedDates logs), some dh, logs.length⟩ := by
  obtain ⟨dh, dt, hd⟩ : ∃ dh dt, (sortedDates logs).reverse = dh :: dt := by
    cases hrev : (sortedDates logs).reverse with
    | nil =>
        exfalso
        exact sortedDates_ne_nil h (by simpa using congrArg List.reverse hrev)
    | cons x xs => exact ⟨x, xs, rfl⟩
  refine ⟨dh, dt, hd, ?_⟩
  have hne : logs.isEmpty = false := by
    cases logs with
    | nil => exact absurd rfl h
    | cons a l => rfl
  simp [computeStreakStats, hne, hd]

/-! ## Helper lemmas about ILIKE and the catalog -/

/-- A LIKE pattern without wildcards matches exactly itself. -/
theorem likeMatch_no_wildcards : ∀ (p s : List Char),
    (∀ c ∈ p, c ≠ '%' ∧ c ≠ '_') →
    (likeMatch p s = true ↔ p = s) := by
  intro p
  induction p with
  | nil =>
      intro s _
      cases s with
      | nil => simp [likeMatch, List.isEmpty]
      | cons c s2 => simp [likeMatch, List.isEmpty]
  | cons c p2 ih =>
      intro s hw
      obtain ⟨hc1, hc2⟩ := hw c (List.mem_cons_self c p2)
      have hw2 : ∀ x ∈ p2, x ≠ '%' ∧ x ≠ '_' :=
        fun x hx => hw x (List.mem_cons_of_mem c hx)
      cases s with
      | nil => simp [likeMatch, hc1]
      | cons d s2 =>
          simp only [likeMatch, if_neg hc1, if_neg hc2]
          rw [Bool.and_eq_true, beq_iff_eq, ih s2 hw2]
          constructor
          · rintro ⟨rfl, rfl⟩; rfl
          · intro h
            injection h with h1 h2
            exact ⟨h1, h2⟩

/-- For a wildcard-free pattern, ILIKE is case-insensitive equality. -/
theorem ilikeMatches_plain (pat s : String)
    (hw : ∀ c ∈ (sqlLower pat).toList, c ≠ '%' ∧ c ≠ '_') :
    (ilikeMatches pat s = true ↔ sqlLower pat = sqlLower s) := by
  unfold ilikeMatches
  rw [likeMatch_no_wildcards _ _ hw]
  constructor
  · intro h
    exact String.ext h
  · intro h
    rw [h]

/-- For a wildcard-free pattern, the ILIKE lookup is the filter on
equal lowered names within the PT. -/
theorem lookupByName_plain (rows : List CatalogRow) (ptId pat : String)
    (hw : ∀ c ∈ (sqlLower pat).toList, c ≠ '%' ∧ c ≠ '_') :
    lookupByName rows ptId pat
      = rows.filter (fun r => r.ptId == ptId && sqlLower r.name == sqlLower pat) := by
  unfold lookupByName
  apply List.filter_congr
  intro r _
  have hiff := ilikeMatches_plain pat r.name hw
  have hb : ilikeMatches pat r.name = (sqlLower r.name == sqlLower pat) := by
    by_cases hmatch : sqlLower pat = sqlLower r.name
    · simp [hiff.mpr hmatch, hmatch]
    · have h1 : ilikeMatches pat r.name = false := by
        rcases Bool.eq_false_or_eq_true (ilikeMatches pat r.name) with h | h
        · exact absurd (hiff.mp h) hmatch
        · exact h
      have h2 : (sqlLower r.name == sqlLower pat) = false := by
        simp only [beq_eq_false_iff_ne, ne_eq]
        exact fun h => hmatch h.symm
      rw [h1, h2]
  rw [hb]

/-- Under the unique index, at most one catalog row of a PT carries a
given lowered name. -/
theorem catalogWF_filter_le_one (ptId key : String) : ∀ (rows : List CatalogRow),
    catalogWF rows →
    (rows.filter (fun r => r.ptId == ptId && sqlLower r.name == key)).length ≤ 1 := by
  intro rows
  induction rows with
  | nil => intro _; simp
  | cons r rest ih =>
      intro hwf
      have hwf2 : catalogWF rest := hwf.of_cons
      by_cases hr : (r.ptId == ptId && sqlLower r.name == key) = true
      · rw [@List.filter_cons_of_pos _ (fun q => q.ptId == ptId && sqlLower q.name == key)
          r rest hr]
        have hnil : rest.filter (fun r2 => r2.ptId == ptId && sqlLower r2.name == key) = [] := by
          rw [List.filter_eq_nil_iff]
          intro r2 hr2
          simp only [Bool.and_eq_true, beq_iff_eq] at hr ⊢
          rintro ⟨h1, h2⟩
          exact List.rel_of_pairwise_cons hwf hr2 ⟨by rw [hr.1, h1], by rw [hr.2, h2]⟩
        rw [hnil]
        simp
      · rw [@List.filter_cons_of_neg _ (fun q => q.ptId == ptId && sqlLower q.name == key)
          r rest hr]
        exact ih hwf2

/-- Unfolding of resolveByName when the ILIKE lookup returns exactly
one row: the row is reused, the state is unchanged. -/
theorem resolveByName_lookup_hit (st : CatalogState) (ia : List CatalogRow)
    (ptId : String) (cid : Option Nat) (nm : String) (notes : Option String)
    (rs : Option Int) (r : CatalogRow)
    (hlook : lookupByName st.rows ptId (jsTrim nm) = [r]) :
    resolveByName st ia ptId ⟨cid, nm, notes, rs⟩ = .ok (r.id, st) := by
  unfold resolveByName
  dsimp only
  rw [hlook]

/-- Unfolding of resolveByName when the lookup misses and the insert
does not hit the unique index: a fresh row is appended. -/
theorem resolveByName_insert (st : CatalogState) (ia : List CatalogRow)
    (ptId : String) (cid : Option Nat) (nm : String) (notes : Option String)
    (rs : Option Int)
    (hlook : lookupByName st.rows ptId (jsTrim nm) = [])
    (hconf : nameConflict ia ptId (jsTrim nm) = false) :
    resolveByName st ia ptId ⟨cid, nm, notes, rs⟩
      = .ok (st.nextId, ⟨ia ++ [⟨st.nextId, ptId, jsTrim nm, notes, rs⟩], st.nextId + 1⟩) := by
  unfold resolveByName
  dsimp only
  rw [hlook, hconf]
  rfl

/-! ## Claim C1: the losing insert in the catalog race -/

/-- Claim C1, counterexample: with an empty catalog and a concurrent
writer committing (pt1, "squat") between this request's lookup and
insert, resolveExerciseCatalogId for (pt1, "Squat") hits the unique
index and throws "Failed to create exercise in catalog" — it does not
retry the lookup and does not return the existing entry's id 5. -/
theorem c1_counterexample :
    resolveRaced ⟨[], 0⟩ [⟨5, "pt1", "squat", none, none⟩] "pt1"
        ⟨none, "Squat", none, none⟩
      = .error "Failed to create exercise in catalog" := rfl

/-- Claim C1 as amended: whenever the catalogId path misses, the name
lookup misses, and another writer has created a row with the same
(ptId, lower(name)) before the insert runs, resolveExerciseCatalogId
surfaces the error "Failed to create exercise in catalog" to its caller
instead of retrying the lookup. -/
theorem c1_raced_insert_surfaces_error (st : CatalogState)
    (interleaved : List CatalogRow) (ptId : String) (ex : ExerciseRef)
    (hcid : ex.catalogId = none)
    (hlook : lookupByName st.rows ptId (jsTrim ex.name) = [])
    (hconf : nameConflict (st.rows ++ interleaved) ptId (jsTrim ex.name) = true) :
    resolveRaced st interleaved ptId ex
      = .error "Failed to create exercise in catalog" := by
  obtain ⟨cid0, nm, nts, rsx⟩ := ex
  dsimp only at hcid hlook hconf
  cases hcid
  unfold resolveRaced resolveByName
  dsimp only
  rw [hlook]
  dsimp only
  rw [hconf]
  rfl

/-- Claim C1 witness: the amended theorem applied at the concrete
losing race of the counterexample. -/
theorem c1_raced_insert_surfaces_error_witness :
    resolveRaced ⟨[], 1⟩ [⟨7, "pt9", "row machine", none, none⟩] "pt9"
        ⟨none, " Row Machine ", none, none⟩
      = .error "Failed to create exercise in catalog" :=
  c1_raced_insert_surfaces_error ⟨[], 1⟩ [⟨7, "pt9", "row machine", none, none⟩]
    "pt9" ⟨none, " Row Machine ", none, none⟩ rfl rfl rfl

/-! ## Claim C5: sequential idempotence of catalog resolution -/

/-- Claim C5, counterexample: the "case-insensitive exact name match" of
the claim is implemented with ILIKE, whose pattern wildcards break
idempotence.  With catalog rows "ab" and "ac" for pt1, resolving the
name "a_" first inserts a row (the two pattern matches make maybeSingle
error, which the source ignores), and the second identical call throws:
three rows now match the pattern, maybeSingle errors again, and the
insert hits the unique index. -/
theorem c5_counterexample :
    (resolveExerciseCatalogId
        ⟨[⟨1, "pt1", "ab", none, none⟩, ⟨2, "pt1", "ac", none, none⟩], 3⟩
        "pt1" ⟨none, "a_", none, none⟩
      = .ok (3, ⟨[⟨1, "pt1", "ab", none, none⟩, ⟨2, "pt1", "ac", none, none⟩,
          ⟨3, "pt1", "a_", none, none⟩], 4⟩)) ∧
    (resolveExerciseCatalogId
        ⟨[⟨1, "pt1", "ab", none, none⟩, ⟨2, "pt1", "ac", none, none⟩,
          ⟨3, "pt1", "a_", none, none⟩], 4⟩
        "pt1" ⟨none, "a_", none, none⟩
      = .error "Failed to create exercise in catalog") :=
  ⟨rfl, rfl⟩

/-- Claim C5 as amended: restricted to names whose trimmed, lowered form
contains no LIKE wildcard ('%' or '_'), and to a catalog satisfying the
unique-index invariant, two successive calls for the same PT with the
same name up to case and trimming return the same id, the second call
changes nothing, and exactly one row with that (PT, lower(name))
exists afterwards. -/
theorem c5_resolve_idempotent
    (st : CatalogState) (ptId n1 n2 : String)
    (notes1 notes2 : Option String) (rs1 rs2 : Option Int)
    (hw1 : ∀ c ∈ (sqlLower (jsTrim n1)).toList, c ≠ '%' ∧ c ≠ '_')
    (hw2 : ∀ c ∈ (sqlLower (jsTrim n2)).toList, c ≠ '%' ∧ c ≠ '_')
    (heqn : sqlLower (jsTrim n1) = sqlLower (jsTrim n2))
    (hwf : catalogWF st.rows) :
    ∃ i st1,
      resolveExerciseCatalogId st ptId ⟨none, n1, notes1, rs1⟩ = .ok (i, st1) ∧
      resolveExerciseCatalogId st1 ptId ⟨none, n2, notes2, rs2⟩ = .ok (i, st1) ∧
      (st1.rows.filter (fun r => r.ptId == ptId &&
          sqlLower r.name == sqlLower (jsTrim n1))).length = 1 := by
  have hl1 : lookupByName st.rows ptId (jsTrim n1)
      = st.rows.filter (fun r => r.ptId == ptId && sqlLower r.name == sqlLower (jsTrim n1)) :=
    lookupByName_plain st.rows ptId (jsTrim n1) hw1
  have hlen := catalogWF_filter_le_one ptId (sqlLower (jsTrim n1)) st.rows hwf
  cases hF : st.rows.filter
      (fun r => r.ptId == ptId && sqlLower r.name == sqlLower (jsTrim n1)) with
  | cons r rest0 =>
      cases rest0 with
      | nil =>
          have hcall1 : resolveExerciseCatalogId st ptId ⟨none, n1, notes1, rs1⟩
              = .ok (r.id, st) :=
            resolveByName_lookup_hit st st.rows ptId none n1 notes1 rs1 r
              (by rw [hl1, hF])
          have hl2 : lookupByName st.rows ptId (jsTrim n2)
              = st.rows.filter
                  (fun q => q.ptId == ptId && sqlLower q.name == sqlLower (jsTrim n1)) := by
            rw [lookupByName_plain st.rows ptId (jsTrim n2) hw2, ← heqn]
          have hcall2 : resolveExerciseCatalogId st ptId ⟨none, n2, notes2, rs2⟩
              = .ok (r.id, st) :=
            resolveByName_lookup_hit st st.rows ptId none n2 notes2 rs2 r
              (by rw [hl2, hF])
          exact ⟨r.id, st, hcall1, hcall2, by rw [hF]; rfl⟩
      | cons r2 rest1 =>
          exfalso
          rw [hF] at hlen
          simp at hlen
  | nil =>
      have hconf1 : nameConflict st.rows ptId (jsTrim n1) = false := by
        unfold nameConflict
        rw [List.any_eq_false]
        intro q hq
        have := List.filter_eq_nil_iff.mp hF q hq
        simpa using this
      set nr : CatalogRow := ⟨st.nextId, ptId, jsTrim n1, notes1, rs1⟩ with hnr
      have hcall1 : resolveExerciseCatalogId st ptId ⟨none, n1, notes1, rs1⟩
          = .ok (st.nextId, ⟨st.rows ++ [nr], st.nextId + 1⟩) := by
        rw [hnr]
        exact resolveByName_insert st st.rows ptId none n1 notes1 rs1
          (by rw [hl1, hF]) hconf1
      have hmatchnew : (nr.ptId == ptId && sqlLower nr.name == sqlLower (jsTrim n1)) = true := by
        rw [hnr]
        simp
      have hF2 : (st.rows ++ [nr]).filter
            (fun q => q.ptId == ptId && sqlLower q.name == sqlLower (jsTrim n1))
          = [nr] := by
        rw [List.filter_append, hF]
        simp [hmatchnew]
      have hl2 : lookupByName (st.rows ++ [nr]) ptId (jsTrim n2)
          = (st.rows ++ [nr]).filter
              (fun q => q.ptId == ptId && sqlLower q.name == sqlLower (jsTrim n1)) := by
        rw [lookupByName_plain (st.rows ++ [nr]) ptId (jsTrim n2) hw2, ← heqn]
      have hcall2 : resolveExerciseCatalogId
            (⟨st.rows ++ [nr], st.nextId + 1⟩ : CatalogState) ptId ⟨none, n2, notes2, rs2⟩
          = .ok (nr.id, (⟨st.rows ++ [nr], st.nextId + 1⟩ : CatalogState)) :=
        resolveByName_lookup_hit ⟨st.rows ++ [nr], st.nextId + 1⟩ (st.rows ++ [nr])
          ptId none n2 notes2 rs2 nr (by dsimp only; rw [hl2, hF2])
      refine ⟨nr.id, ⟨st.rows ++ [nr], st.nextId + 1⟩, hcall1, hcall2, ?_⟩
      dsimp only
      rw [hF2]
      rfl

/-- Claim C5 witness: resolving "Bench Press" in an empty catalog for
pt1 creates row 0, and the amended theorem applied at those inputs
shows the follow-up call with " bench press " reuses id 0 and leaves
the catalog unchanged. -/
theorem c5_resolve_idempotent_witness :
    resolveExerciseCatalogId ⟨[⟨0, "pt1", "Bench Press", none, none⟩], 1⟩ "pt1"
        ⟨none, " bench press ", none, none⟩
      = .ok (0, ⟨[⟨0, "pt1", "Bench Press", none, none⟩], 1⟩) := by
  obtain ⟨i, st1, h1, h2, h3⟩ := c5_resolve_idempotent ⟨[], 0⟩ "pt1"
    "Bench Press" " bench press " none none none none
    (by decide) (by decide) (by decide) List.Pairwise.nil
  have hcomb : (Except.ok (i, st1) : Except String (Nat × CatalogState))
      = .ok (0, ⟨[⟨0, "pt1", "Bench Press", none, none⟩], 1⟩) := by
    rw [← h1]
    rfl
  injection hcomb with hpair
  injection hpair with hi hst
  subst hi
  subst hst
  exact h2

/-! ## Helper lemmas about the upsert child loop -/

/-- A catalogId fast-path hit returns that id and leaves the catalog
unchanged. -/
theorem resolve_catalogHit (cat : CatalogState) (ptId : String) (ex : UpsertExercise)
    (h : catalogHit cat ptId ex) :
    ∃ cid, ex.catalogId = some cid ∧
      resolveExerciseCatalogId cat ptId (toExerciseRef ex) = .ok (cid, cat) := by
  obtain ⟨cid, hcid, hany⟩ := h
  refine ⟨cid, hcid, ?_⟩
  unfold resolveExerciseCatalogId toExerciseRef
  dsimp only
  rw [hcid]
  dsimp only
  rw [if_pos hany]

/-- Every planned child row belongs to the routine being upserted. -/
theorem plannedRows_routineId (fm : FailureModel) (rid : Nat) :
    ∀ (exs : List UpsertExercise) (idx pos nid : Nat) (e : RoutineExerciseRow),
      e ∈ plannedRows fm rid exs idx pos nid → e.routineId = rid := by
  intro exs
  induction exs with
  | nil =>
      intro idx pos nid e he
      simp [plannedRows] at he
  | cons ex rest ih =>
      intro idx pos nid e he
      by_cases hf : fm.exerciseInsertFails idx
      · rw [plannedRows, if_pos hf] at he
        exact ih (idx + 1) pos nid e he
      · rw [plannedRows, if_neg hf] at he
        rcases List.mem_cons.mp he with rfl | he2
        · rfl
        · exact ih (idx + 1) (pos + 1) (nid + 1) e he2

/-- Planned child rows carry ids at or above the starting fresh id. -/
theorem plannedRows_id_ge (fm : FailureModel) (rid : Nat) :
    ∀ (exs : List UpsertExercise) (idx pos nid : Nat) (e : RoutineExerciseRow),
      e ∈ plannedRows fm rid exs idx pos nid → nid ≤ e.id := by
  intro exs
  induction exs with
  | nil =>
      intro idx pos nid e he
      simp [plannedRows] at he
  | cons ex rest ih =>
      intro idx pos nid e he
      by_cases hf : fm.exerciseInsertFails idx
      · rw [plannedRows, if_pos hf] at he
        exact ih (idx + 1) pos nid e he
      · rw [plannedRows, if_neg hf] at he
        rcases List.mem_cons.mp he with rfl | he2
        · exact le_refl _
        · exact le_trans (by omega) (ih (idx + 1) (pos + 1) (nid + 1) e he2)

/-- With no exercise-insert failures, the planned rows list one row per
submitted exercise in order: resolved catalog ids, consecutive
positions from pos, and the submitted notes. -/
theorem plannedRows_nofail (fm : FailureModel) (rid : Nat)
    (hex : ∀ i, fm.exerciseInsertFails i = false) :
    ∀ (exs : List UpsertExercise) (idx pos nid : Nat),
      (plannedRows fm rid exs idx pos nid).map (fun e => e.exerciseId)
          = exs.map (fun ex => ex.catalogId.getD 0) ∧
      (plannedRows fm rid exs idx pos nid).map (fun e => e.position)
          = List.range' pos exs.length ∧
      (plannedRows fm rid exs idx pos nid).map (fun e => e.notes)
          = exs.map (fun ex => ex.notes) := by
  intro exs
  induction exs with
  | nil =>
      intro idx pos nid
      simp [plannedRows, List.range']
  | cons ex rest ih =>
      intro idx pos nid
      have hf : fm.exerciseInsertFails idx = false := hex idx
      rw [plannedRows, if_neg (by rw [hf]; simp)]
      obtain ⟨ih1, ih2, ih3⟩ := ih (idx + 1) (pos + 1) (nid + 1)
      refine ⟨?_, ?_, ?_⟩
      · simp [ih1]
      · simp [ih2, List.range']
      · simp [ih3]

/-- The child loop under catalogId hits: it succeeds for every failure
schedule, leaves catalog and routines untouched, and appends exactly
the planned rows to routine_exercises. -/
theorem insertChildren_ok (fm : FailureModel) (ptId : String) (rid : Nat) :
    ∀ (exs : List UpsertExercise) (idx pos : Nat) (st : Store),
      (∀ ex ∈ exs, catalogHit st.catalog ptId ex) →
      (insertChildren fm ptId rid exs idx pos st).1 = .ok () ∧
      (insertChildren fm ptId rid exs idx pos st).2.catalog = st.catalog ∧
      (insertChildren fm ptId rid exs idx pos st).2.routines = st.routines ∧
      (insertChildren fm ptId rid exs idx pos st).2.routineExercises
        = st.routineExercises ++ plannedRows fm rid exs idx pos st.nextId := by
  intro exs
  induction exs with
  | nil =>
      intro idx pos st _
      exact ⟨rfl, rfl, rfl, by simp [insertChildren, plannedRows]⟩
  | cons ex rest ih =>
      intro idx pos st hhits
      obtain ⟨cid, hcid, hres⟩ :=
        resolve_catalogHit st.catalog ptId ex (hhits ex (List.mem_cons_self ex rest))
      have hhits2 : ∀ e ∈ rest, catalogHit st.catalog ptId e :=
        fun e he => hhits e (List.mem_cons_of_mem ex he)
      have hgetD : ex.catalogId.getD 0 = cid := by rw [hcid]; rfl
      by_cases hf : fm.exerciseInsertFails idx
      · have hstep : insertChildren fm ptId rid (ex :: rest) idx pos st
            = insertChildren fm ptId rid rest (idx + 1) pos st := by
          rw [insertChildren, hres]
          dsimp only
          rw [if_pos hf]
        obtain ⟨h1, h2, h3, h4⟩ := ih (idx + 1) pos st hhits2
        rw [hstep, plannedRows, if_pos hf]
        exact ⟨h1, h2, h3, h4⟩
      · have hstep : insertChildren fm ptId rid (ex :: rest) idx pos st
            = insertChildren fm ptId rid rest (idx + 1) (pos + 1)
                ⟨st.catalog, st.routines,
                  st.routineExercises ++ [⟨st.nextId, rid, cid, pos, ex.notes⟩],
                  (if ex.sets.isEmpty then st.routineSets
                    else if fm.setsInsertFails idx then st.routineSets
                    else st.routineSets ++ setsPayload st.nextId 0 ex.sets),
                  st.nextId + 1⟩ := by
          rw [insertChildren, hres]
          dsimp only
          rw [if_neg hf]
        obtain ⟨h1, h2, h3, h4⟩ := ih (idx + 1) (pos + 1)
          ⟨st.catalog, st.routines,
            st.routineExercises ++ [⟨st.nextId, rid, cid, pos, ex.notes⟩],
            (if ex.sets.isEmpty then st.routineSets
              else if fm.setsInsertFails idx then st.routineSets
              else st.routineSets ++ setsPayload st.nextId 0 ex.sets),
            st.nextId + 1⟩ hhits2
        rw [hstep, plannedRows, if_neg hf]
        refine ⟨h1, h2, h3, ?_⟩
        rw [h4]
        dsimp only
        rw [hgetD]
        simp [List.append_assoc]

/-- Deleting a routine's rows then filtering for that routine yields
nothing. -/
theorem filter_after_delete (l : List RoutineExerciseRow) (rid : Nat) :
    (l.filter (fun e => !(e.routineId == rid))).filter (fun e => e.routineId == rid) = [] := by
  rw [List.filter_eq_nil_iff]
  intro e he
  have h2 := (List.mem_filter.mp he).2
  simp at h2
  simp [h2]

/-! ## Helper lemmas about health-alert correlation -/

/-- An alert produced from an event carries that event's id. -/
theorem alertFor_eventId (hl : List HealthLog) (pr : List (String × String))
    (e : CalendarEvent) (a : HealthAlert) (h : alertFor hl pr e = some a) :
    a.eventId = e.id := by
  unfold alertFor at h
  cases hc : e.clientId with
  | none =>
      rw [hc] at h
      cases h
  | some cid =>
      rw [hc] at h
      dsimp only at h
      cases hi : activeIssueByClient hl cid with
      | none =>
          rw [hi] at h
          cases h
      | some issue =>
          rw [hi] at h
          cases h
          rfl

/-- Each alert originates from some event of the correlated list. -/
theorem alerts_eventIds (hl : List HealthLog) (pr : List (String × String))
    (l : List CalendarEvent) (a : HealthAlert)
    (ha : a ∈ l.filterMap (alertFor hl pr)) : ∃ e ∈ l, a.eventId = e.id := by
  obtain ⟨e, he, hfe⟩ := List.mem_filterMap.mp ha
  exact ⟨e, he, alertFor_eventId hl pr e a hfe⟩

/-- With pairwise-distinct event ids, the alerts carrying one event's
id are exactly that event's own contribution. -/
theorem filter_alerts_eq (hl : List HealthLog) (pr : List (String × String)) :
    ∀ (l : List CalendarEvent) (e : CalendarEvent),
      l.Pairwise (fun u v => u.id ≠ v.id) → e ∈ l →
      (l.filterMap (alertFor hl pr)).filter (fun a => a.eventId == e.id)
        = (alertFor hl pr e).toList := by
  intro l
  induction l with
  | nil =>
      intro e _ he
      cases he
  | cons f t ih =>
      intro e hp he
      rw [List.filterMap_cons]
      rcases List.mem_cons.mp he with rfl | het
      · have hrest : (t.filterMap (alertFor hl pr)).filter (fun a => a.eventId == e.id)
            = [] := by
          rw [List.filter_eq_nil_iff]
          intro a ha
          obtain ⟨e2, he2, hid⟩ := alerts_eventIds hl pr t a ha
          have hne : e.id ≠ e2.id := List.rel_of_pairwise_cons hp he2
          simp only [hid, beq_iff_eq]
          exact fun hh => hne hh.symm
        cases hfe : alertFor hl pr e with
        | none =>
            dsimp only
            exact hrest
        | some al =>
            dsimp only
            have hal : al.eventId = e.id := alertFor_eventId hl pr e al hfe
            rw [@List.filter_cons_of_pos _ (fun a => a.eventId == e.id) al _
              (by simp [hal])]
            rw [hrest]
            rfl
      · have hne : f.id ≠ e.id := List.rel_of_pairwise_cons hp het
        have hrec := ih e hp.of_cons het
        cases hfe : alertFor hl pr f with
        | none =>
            dsimp only
            exact hrec
        | some al =>
            dsimp only
            have hal : al.eventId = f.id := alertFor_eventId hl pr f al hfe
            rw [@List.filter_cons_of_neg _ (fun a => a.eventId == e.id) al _
              (by simp [hal]; exact hne)]
            exact hrec

/-- In a most-recent-first list, the first match of find? has the
greatest loggedAt among all matches. -/
theorem find?_max_sorted : ∀ (l : List HealthLog),
    l.Pairwise (fun a b => b.loggedAt ≤ a.loggedAt) →
    ∀ a, l.find? isActiveLog = some a →
    ∀ x ∈ l, isActiveLog x = true → x.loggedAt ≤ a.loggedAt := by
  intro l
  induction l with
  | nil =>
      intro _ a ha
      cases ha
  | cons h t ih =>
      intro hp a ha x hx hactx
      rw [List.find?_cons] at ha
      by_cases hh : isActiveLog h = true
      · rw [hh] at ha
        cases ha
        rcases List.mem_cons.mp hx with rfl | hxt
        · exact le_refl _
        · exact List.rel_of_pairwise_cons hp hxt
      · have hh2 : isActiveLog h = false := by simpa using hh
        rw [hh2] at ha
        rcases List.mem_cons.mp hx with rfl | hxt
        · exact absurd hactx hh
        · exact ih hp.of_cons a ha x hxt hactx

/-! ## Claim C3: the rep-range fallback -/

/-- Claim C3, counterexample: with prescribed min = max = 5 the code
returns "5" (the `if (min)` branch), while the claim requires the
literal "10" whenever min and max are both present and equal. -/
theorem c3_counterexample :
    formatRepsFallback (some 5) (some 5) = "5" ∧
    repsFallbackClaim (some 5) (some 5) = "10" ∧
    formatRepsFallback (some 5) (some 5) ≠ repsFallbackClaim (some 5) (some 5) := by
  refine ⟨rfl, rfl, ?_⟩
  decide

/-- Claim C3 as amended: for arguments satisfying the schema CHECK
constraints (prescribed_reps_min > 0 when present, and
prescribed_reps_max ≥ prescribed_reps_min when both are present), the
fallback returns "{min}-{max}" when min and max are present and
distinct, "{min}" when min is present and max is absent or equal to
min, and "10" only when min is absent. -/
theorem c3_reps_fallback_amended (mn mx : Option Int)
    (h1 : ∀ a, mn = some a → 0 < a)
    (h2 : ∀ a b, mn = some a → mx = some b → a ≤ b) :
    formatRepsFallback mn mx = repsFallbackAmended mn mx := by
  match mn, mx with
  | none, _ => rfl
  | some a, none =>
      have ha := h1 a rfl
      have hz : ¬a = 0 := by omega
      simp [formatRepsFallback, repsFallbackAmended, hz]
  | some a, some b =>
      have ha := h1 a rfl
      have hab := h2 a b rfl rfl
      have hb : (0 : Int) < b := lt_of_lt_of_le ha hab
      simp only [formatRepsFallback, repsFallbackAmended]
      by_cases hne : a = b
      · subst hne
        have hz : ¬a = 0 := by omega
        simp [hz]
      · have h1' : (a != 0) = true := by simp [bne_iff_ne]; omega
        have h2' : (b != 0) = true := by simp [bne_iff_ne]; omega
        have h3' : (a != b) = true := by simp [bne_iff_ne]; omega
        simp [h1', h2', h3']

/-- Claim C3 witness: the amended theorem applied at min = 8, max = 12
(the spec's own §8 example), hypotheses discharged concretely. -/
theorem c3_reps_fallback_amended_witness :
    formatRepsFallback (some 8) (some 12) = repsFallbackAmended (some 8) (some 12) :=
  c3_reps_fallback_amended (some 8) (some 12)
    (fun a h => by cases h; decide)
    (fun a b h h' => by cases h; cases h'; decide)

/-! ## Claim C8: weekly goal -/

/-- Claim C8: weekStart is Monday 00:00:00 UTC of the week containing
now (the weekday (d+4)%7 of weekStart's day is 1, i.e. Monday, and now
lies within its seven days), completed counts exactly the sessions in
the half-open interval [weekStart, weekStart + 7 days), goal is the
profile goal when positive and otherwise the routine count, and a
Sunday instant and the following Monday instant start different weeks. -/
theorem c8_weekly_goal (g : Option Int) (logs : List Int) (rc : Int) (now : Int) :
    ((computeWeeklyGoal g logs rc now).weekStartMs
        = startOfWeekDay (dayOf now) * msPerDay ∧
      (startOfWeekDay (dayOf now) + 4) % 7 = 1 ∧
      startOfWeekDay (dayOf now) ≤ dayOf now ∧
      dayOf now < startOfWeekDay (dayOf now) + 7) ∧
    (computeWeeklyGoal g logs rc now).completed
      = logs.countP (fun t => decide (startOfWeekDay (dayOf now) * msPerDay ≤ t ∧
          t < (startOfWeekDay (dayOf now) + 7) * msPerDay)) ∧
    (computeWeeklyGoal g logs rc now).goal
      = (match g with | some v => if 0 < v then v else rc | none => rc) ∧
    (∀ t1 t2 : Int, (dayOf t1 + 4) % 7 = 0 → dayOf t2 = dayOf t1 + 1 →
      startOfWeekDay (dayOf t1) ≠ startOfWeekDay (dayOf t2)) := by
  refine ⟨⟨rfl, ?_, ?_, ?_⟩, ?_, ?_, ?_⟩
  · unfold startOfWeekDay; omega
  · unfold startOfWeekDay; omega
  · unfold startOfWeekDay; omega
  · simp only [computeWeeklyGoal, List.countP_eq_length_filter, Bool.decide_and]
  · cases g with
    | none => rfl
    | some v =>
        simp only [computeWeeklyGoal, truthyNum]
        by_cases hv : 0 < v
        · have : (v != 0) = true := by simp [bne_iff_ne]; omega
          simp [this, hv]
        · simp [hv]
  · intro t1 t2 h1 h2
    unfold startOfWeekDay
    omega

/-- Claim C8 witness: a session at Sunday 2024-01-07T23:59:59Z and one
at Monday 2024-01-08T00:00:00Z fall in different weeks, and a null
profile goal falls back to the routine count, both obtained from the
theorem at those concrete instants. -/
theorem c8_weekly_goal_witness :
    startOfWeekDay (dayOf 1704671999000) ≠ startOfWeekDay (dayOf 1704672000000) ∧
    (computeWeeklyGoal none [] 4 1704672000000).goal = 4 := by
  have h := c8_weekly_goal none ([] : List Int) 4 1704672000000
  exact ⟨h.2.2.2 1704671999000 1704672000000 (by decide) (by decide), h.2.2.1⟩

/-! ## Claim C6: longestStreak is the longest run of consecutive days -/

/-- Claim C6: longestStreak is realized by a run of consecutive UTC
calendar days within the distinct session dates and bounds every such
run, and when the ascending distinct dates split into two consecutive
blocks separated by a gap of more than one day, longestStreak is the
longer block. -/
theorem c6_longest_streak (today : Int) (logs : List Int) :
    ((logs ≠ [] →
        1 ≤ (computeStreakStats today logs).longestStreak ∧
          ∃ a, runIn ((logs.map dayOf).dedup) a
            (computeStreakStats today logs).longestStreak) ∧
      (∀ (a : Int) (k : Nat), runIn ((logs.map dayOf).dedup) a k →
        k ≤ (computeStreakStats today logs).longestStreak)) ∧
    (∀ (x0 : Int) (xs : List Int) (y0 : Int) (ys : List Int),
      sortedDates logs = (x0 :: xs) ++ (y0 :: ys) →
      List.Chain' (fun u v : Int => v - u = 1) (x0 :: xs) →
      List.Chain' (fun u v : Int => v - u = 1) (y0 :: ys) →
      (x0 :: xs).getLast (by simp) + 1 < y0 →
      (computeStreakStats today logs).longestStreak
        = max (xs.length + 1) (ys.length + 1)) := by
  have hmemd : ∀ x : Int, x ∈ sortedDates logs ↔ x ∈ (logs.map dayOf).dedup :=
    sortedDates_mem logs
  refine ⟨⟨?_, ?_⟩, ?_⟩
  · intro h
    obtain ⟨dh, dt, hd, heq⟩ := computeStreak_eq today logs h
    rw [heq]
    exact longestOf_runIn _ _ (fun x hx => (hmemd x).mp hx) (sortedDates_ne_nil h)
  · intro a k hrun
    rcases Nat.eq_zero_or_pos k with hk | hk
    · exact hk ▸ Nat.zero_le _
    · by_cases h : logs = []
      · exfalso
        have hmem := hrun 0 hk
        rw [h] at hmem
        simp at hmem
      · obtain ⟨dh, dt, hd, heq⟩ := computeStreak_eq today logs h
        rw [heq]
        exact longestOf_ge_run _ (sortedDates_pairwise logs) a k hk
          (fun j hj => (hmemd _).mpr (hrun j hj))
  · intro x0 xs y0 ys hfeq hchx hchy hgap
    have hlne : logs ≠ [] := by
      intro h0
      subst h0
      simp [sortedDates] at hfeq
    obtain ⟨dh, dt, hd, heq⟩ := computeStreak_eq today logs hlne
    rw [heq]
    dsimp only
    have hsort := sortedDates_pairwise logs
    have hmem2 : ∀ y : Int, y ∈ sortedDates logs ↔ (y ∈ x0 :: xs ∨ y ∈ y0 :: ys) := by
      intro y; rw [hfeq, List.mem_append]
    have hmx := chain_mem xs x0 hchx
    have hmy := chain_mem ys y0 hchy
    rw [chain_getLast xs x0 hchx] at hgap
    set g : Int := x0 + (xs.length : Int) + 1 with hg
    have hg_notin : g ∉ sortedDates logs := by
      intro hgmem
      rcases (hmem2 g).mp hgmem with hm | hm
      · obtain ⟨j, hj, hj2⟩ := (hmx g).mp hm
        omega
      · obtain ⟨j, hj, hj2⟩ := (hmy g).mp hm
        omega
    have hrunx : ∀ j : Nat, j < xs.length + 1 → x0 + (j : Int) ∈ sortedDates logs :=
      fun j hj => (hmem2 _).mpr (Or.inl ((hmx _).mpr ⟨j, hj, rfl⟩))
    have hruny : ∀ j : Nat, j < ys.length + 1 → y0 + (j : Int) ∈ sortedDates logs :=
      fun j hj => (hmem2 _).mpr (Or.inr ((hmy _).mpr ⟨j, hj, rfl⟩))
    have hlow1 : xs.length + 1 ≤ longestOf (sortedDates logs) :=
      longestOf_ge_run _ hsort x0 _ (by omega) hrunx
    have hlow2 : ys.length + 1 ≤ longestOf (sortedDates logs) :=
      longestOf_ge_run _ hsort y0 _ (by omega) hruny
    obtain ⟨hpos, a, harun⟩ := longestOf_runIn (sortedDates logs) (sortedDates logs)
      (fun x hx => hx) (by rw [hfeq]; simp)
    set L := longestOf (sortedDates logs) with hL
    have hcase : (a + (L : Int) - 1 < g) ∨ (g < a) := by
      by_contra hcon
      push_neg at hcon
      obtain ⟨h1, h2⟩ := hcon
      have hjL : (g - a).toNat < L := by omega
      have hgm := harun (g - a).toNat hjL
      rw [show a + (((g - a).toNat : Nat) : Int) = g by omega] at hgm
      exact hg_notin hgm
    rcases hcase with hca | hca
    · have hsubx : ∀ j : Nat, j < L → a + (j : Int) ∈ x0 :: xs := by
        intro j hj
        rcases (hmem2 _).mp (harun j hj) with hm | hm
        · exact hm
        · exfalso
          obtain ⟨j', hj', hj2⟩ := (hmy _).mp hm
          omega
      have hub : L ≤ (x0 :: xs).length := run_length_le hsubx
      simp only [List.length_cons] at hub
      omega
    · have hsuby : ∀ j : Nat, j < L → a + (j : Int) ∈ y0 :: ys := by
        intro j hj
        rcases (hmem2 _).mp (harun j hj) with hm | hm
        · exfalso
          obtain ⟨j', hj', hj2⟩ := (hmx _).mp hm
          omega
        · exact hm
      have hub : L ≤ (y0 :: ys).length := run_length_le hsuby
      simp only [List.length_cons] at hub
      omega

/-- Claim C6 witness: sessions on days 0, 1 and 3 (one gap of two days)
give longestStreak 2 = max of the block lengths, with the run and bound
facts instantiated at the same sessions. -/
theorem c6_longest_streak_witness :
    (1 ≤ (computeStreakStats 3 [0, 86400000, 259200000]).longestStreak ∧
      ∃ a, runIn ((([0, 86400000, 259200000] : List Int).map dayOf).dedup) a
        (computeStreakStats 3 [0, 86400000, 259200000]).longestStreak) ∧
    (computeStreakStats 3 [0, 86400000, 259200000]).longestStreak
      = max (([1] : List Int).length + 1) (([] : List Int).length + 1) :=
  ⟨(c6_longest_streak 3 [0, 86400000, 259200000]).1.1 (by decide),
    (c6_longest_streak 3 [0, 86400000, 259200000]).2 0 [1] 3 []
      (by decide) (by norm_num [List.chain'_cons, List.chain'_singleton])
      (List.chain'_singleton 3) (by decide)⟩

/-! ## Claim C7: currentStreak and today -/

/-- Claim C7: currentStreak is non-zero only when the most recent
distinct session date (lastWorkoutDate) is today; when the most recent
date differs from today it is 0; and when the most recent date is
today, currentStreak counts exactly the unbroken chain of days down
from today: every counted day is present among the distinct dates and
the next day down is missing. -/
theorem c7_current_streak (today : Int) (logs : List Int) :
    ((computeStreakStats today logs).currentStreak ≠ 0 →
        (computeStreakStats today logs).lastWorkoutDate = some today) ∧
    (∀ d : Int, (computeStreakStats today logs).lastWorkoutDate = some d →
        d ≠ today → (computeStreakStats today logs).currentStreak = 0) ∧
    ((computeStreakStats today logs).lastWorkoutDate = some today →
        (∀ j : Nat, j < (computeStreakStats today logs).currentStreak →
            today - (j : Int) ∈ (logs.map dayOf).dedup) ∧
        today - (((computeStreakStats today logs).currentStreak : Nat) : Int)
            ∉ (logs.map dayOf).dedup) := by
  by_cases h : logs = []
  · subst h
    refine ⟨?_, ?_, ?_⟩
    · intro hne
      exact absurd rfl hne
    · intro d hlast
      exact absurd hlast (by simp [computeStreakStats])
    · intro hlast
      exact absurd hlast (by simp [computeStreakStats])
  · obtain ⟨dh, dt, hd, heq⟩ := computeStreak_eq today logs h
    have hdesc : (dh :: dt).Pairwise (fun u v : Int => v < u) := by
      have hp := sortedDates_reverse_pairwise logs
      rwa [hd] at hp
    rw [heq]
    dsimp only
    refine ⟨?_, ?_, ?_⟩
    · intro hne
      by_cases hdh : dh = today
      · rw [hdh]
      · rw [if_neg hdh] at hne
        exact absurd rfl hne
    · intro d hlast hne
      have hdd : dh = d := Option.some.inj hlast
      rw [if_neg (by rw [hdd]; exact hne)]
    · intro hlast
      have hdh : dh = today := Option.some.inj hlast
      subst hdh
      rw [if_pos rfl]
      obtain ⟨w1, w2⟩ := walkBack_chain dt dh hdesc
      constructor
      · intro j hj
        have hm := w1 j hj
        rw [← hd] at hm
        exact (sortedDates_reverse_mem logs _).mp hm
      · intro hmem
        have hm := (sortedDates_reverse_mem logs _).mpr hmem
        rw [hd] at hm
        exact w2 hm

/-- Claim C7 witness: with sessions on days 0, 1 and 3, a query on day 4
(most recent session the day before) has currentStreak 0, and the same
query on day 3 counts the chain day 3 with day 2 missing; both obtained
by applying the theorem at those inputs. -/
theorem c7_current_streak_witness :
    (computeStreakStats 4 [0, 86400000, 259200000]).currentStreak = 0 ∧
    ((∀ j : Nat, j < (computeStreakStats 3 [0, 86400000, 259200000]).currentStreak →
        (3 : Int) - (j : Int) ∈ (([0, 86400000, 259200000] : List Int).map dayOf).dedup) ∧
      (3 : Int) - (((computeStreakStats 3 [0, 86400000, 259200000]).currentStreak : Nat) : Int)
          ∉ (([0, 86400000, 259200000] : List Int).map dayOf).dedup) :=
  ⟨(c7_current_streak 4 [0, 86400000, 259200000]).2.1 3 (by decide) (by decide),
    (c7_current_streak 3 [0, 86400000, 259200000]).2.2 (by decide)⟩

/-! ## Claim C10: currentStreak never exceeds longestStreak -/

/-- Claim C10: for every session list, the backward walk from today
counts one run of consecutive distinct days, and longestStreak is the
maximum over all runs, so currentStreak is at most longestStreak. -/
theorem c10_current_le_longest (today : Int) (logs : List Int) :
    (computeStreakStats today logs).currentStreak
      ≤ (computeStreakStats today logs).longestStreak := by
  by_cases h : logs = []
  · subst h
    exact Nat.le_refl 0
  · obtain ⟨dh, dt, hd, heq⟩ := computeStreak_eq today logs h
    rw [heq]
    dsimp only
    by_cases hdh : dh = today
    · subst hdh
      rw [if_pos rfl]
      have hdesc : (dh :: dt).Pairwise (fun u v : Int => v < u) := by
        have hp := sortedDates_reverse_pairwise logs
        rwa [hd] at hp
      obtain ⟨w1, _⟩ := walkBack_chain dt dh hdesc
      set w := 1 + walkBack dh dt with hw
      apply longestOf_ge_run (sortedDates logs) (sortedDates_pairwise logs)
        (dh - (w : Int) + 1) w (by omega)
      intro i hi
      have hji : (w - 1 - i : Nat) < w := by omega
      have hm := w1 (w - 1 - i) hji
      have heq2 : dh - ((w - 1 - i : Nat) : Int) = dh - (w : Int) + 1 + (i : Int) := by
        omega
      rw [heq2] at hm
      rw [← hd] at hm
      exact List.mem_reverse.mp hm
    · rw [if_neg hdh]
      exact Nat.zero_le _

/-! ## Claim C2: upsert fully replaces a routine's exercise graph -/

/-- Claim C2: a successful upsert on an existing routineId (no store
write fails; every exercise resolves through its catalogId) leaves the
routine's exercise rows exactly equal to the submitted list in
submission order — matching resolved catalog ids and notes — with
positions contiguous 0..n-1, and no exercise row of the previous
version survives. -/
theorem c2_upsert_replaces (fm : FailureModel) (st : Store) (rid : Nat)
    (ptId clientId nm : String) (exs : List UpsertExercise)
    (htop : fm.routineWriteFails = false)
    (hnof : ∀ i, fm.exerciseInsertFails i = false)
    (_hexists : ∃ r ∈ st.routines, r.id = rid)
    (hhits : ∀ ex ∈ exs, catalogHit st.catalog ptId ex)
    (hfresh : ∀ e ∈ st.routineExercises, e.id < st.nextId) :
    (upsertRoutine fm st ⟨some rid, ptId, clientId, nm, exs⟩).1 = .ok rid ∧
    ((upsertRoutine fm st ⟨some rid, ptId, clientId, nm, exs⟩).2.routineExercises.filter
        (fun e => e.routineId == rid)).map (fun e => e.exerciseId)
      = exs.map (fun ex => ex.catalogId.getD 0) ∧
    ((upsertRoutine fm st ⟨some rid, ptId, clientId, nm, exs⟩).2.routineExercises.filter
        (fun e => e.routineId == rid)).map (fun e => e.notes)
      = exs.map (fun ex => ex.notes) ∧
    ((upsertRoutine fm st ⟨some rid, ptId, clientId, nm, exs⟩).2.routineExercises.filter
        (fun e => e.routineId == rid)).map (fun e => e.position)
      = List.range exs.length ∧
    (∀ e ∈ st.routineExercises, e.routineId = rid →
      e ∉ (upsertRoutine fm st ⟨some rid, ptId, clientId, nm, exs⟩).2.routineExercises) := by
  have hstep : upsertRoutine fm st ⟨some rid, ptId, clientId, nm, exs⟩
      = (match insertChildren fm ptId rid exs 0 0
            ⟨st.catalog,
              st.routines.map (fun r =>
                if r.id == rid && r.ptId == ptId then ⟨r.id, ptId, clientId, nm⟩ else r),
              st.routineExercises.filter (fun e => !(e.routineId == rid)),
              st.routineSets.filter (fun s2 =>
                !((st.routineExercises.filter (fun e => e.routineId == rid)).any
                  (fun e => e.id == s2.routineExerciseId))),
              st.nextId⟩ with
          | (.error e, st3) => (.error e, st3)
          | (.ok _, st3) => (.ok rid, st3)) := by
    rw [upsertRoutine]
    dsimp only
    rw [htop]
    rfl
  obtain ⟨h1, h2, h3, h4⟩ := insertChildren_ok fm ptId rid exs 0 0
    ⟨st.catalog,
      st.routines.map (fun r =>
        if r.id == rid && r.ptId == ptId then ⟨r.id, ptId, clientId, nm⟩ else r),
      st.routineExercises.filter (fun e => !(e.routineId == rid)),
      st.routineSets.filter (fun s2 =>
        !((st.routineExercises.filter (fun e => e.routineId == rid)).any
          (fun e => e.id == s2.routineExerciseId))),
      st.nextId⟩ hhits
  have hpair : insertChildren fm ptId rid exs 0 0
      ⟨st.catalog,
        st.routines.map (fun r =>
          if r.id == rid && r.ptId == ptId then ⟨r.id, ptId, clientId, nm⟩ else r),
        st.routineExercises.filter (fun e => !(e.routineId == rid)),
        st.routineSets.filter (fun s2 =>
          !((st.routineExercises.filter (fun e => e.routineId == rid)).any
            (fun e => e.id == s2.routineExerciseId))),
        st.nextId⟩
      = (.ok (), (insertChildren fm ptId rid exs 0 0
          ⟨st.catalog,
            st.routines.map (fun r =>
              if r.id == rid && r.ptId == ptId then ⟨r.id, ptId, clientId, nm⟩ else r),
            st.routineExercises.filter (fun e => !(e.routineId == rid)),
            st.routineSets.filter (fun s2 =>
              !((st.routineExercises.filter (fun e => e.routineId == rid)).any
                (fun e => e.id == s2.routineExerciseId))),
            st.nextId⟩).2) := by
    rw [← h1]
  rw [hstep, hpair]
  dsimp only
  rw [h4]
  dsimp only
  have hplanned : ∀ e ∈ plannedRows fm rid exs 0 0 st.nextId,
      (fun e : RoutineExerciseRow => e.routineId == rid) e = true := by
    intro e he
    have := plannedRows_routineId fm rid exs 0 0 st.nextId e he
    simp [this]
  have hfsplit : (st.routineExercises.filter (fun e => !(e.routineId == rid))
        ++ plannedRows fm rid exs 0 0 st.nextId).filter (fun e => e.routineId == rid)
      = plannedRows fm rid exs 0 0 st.nextId := by
    rw [List.filter_append, filter_after_delete, List.nil_append,
      List.filter_eq_self.mpr hplanned]
  rw [hfsplit]
  obtain ⟨hm1, hm2, hm3⟩ := plannedRows_nofail fm rid hnof exs 0 0 st.nextId
  refine ⟨rfl, hm1, hm3, ?_, ?_⟩
  · rw [hm2, List.range_eq_range']
  · intro e he herid hmem
    rcases List.mem_append.mp hmem with hmem | hmem
    · have := (List.mem_filter.mp hmem).2
      simp [herid] at this
    · have hge := plannedRows_id_ge fm rid exs 0 0 st.nextId e hmem
      have hlt := hfresh e he
      omega

/-- Claim C2 witness: the routine 10 initially has two exercise rows; a
second upsert submitting a single exercise leaves exactly that one row
at position 0 and drops both old rows, by the theorem at concrete
inputs. -/
theorem c2_upsert_replaces_witness :
    ((upsertRoutine ⟨false, fun _ => false, fun _ => false⟩
        ⟨⟨[⟨1, "pt", "squat", none, none⟩, ⟨2, "pt", "bench", none, none⟩], 3⟩,
          [⟨10, "pt", "cl", "old"⟩],
          [⟨0, 10, 1, 0, none⟩, ⟨1, 10, 2, 1, none⟩],
          [⟨0, 1, some "8-12", none, none, none⟩], 5⟩
        ⟨some 10, "pt", "cl", "new",
          [⟨"Bench", none, some 2, none, [⟨none, some 10, none, none⟩]⟩]⟩).1 = .ok 10) ∧
    (((upsertRoutine ⟨false, fun _ => false, fun _ => false⟩
        ⟨⟨[⟨1, "pt", "squat", none, none⟩, ⟨2, "pt", "bench", none, none⟩], 3⟩,
          [⟨10, "pt", "cl", "old"⟩],
          [⟨0, 10, 1, 0, none⟩, ⟨1, 10, 2, 1, none⟩],
          [⟨0, 1, some "8-12", none, none, none⟩], 5⟩
        ⟨some 10, "pt", "cl", "new",
          [⟨"Bench", none, some 2, none, [⟨none, some 10, none, none⟩]⟩]⟩).2.routineExercises.filter
        (fun e => e.routineId == 10)).map (fun e => e.position) = List.range 1) := by
  have h := c2_upsert_replaces ⟨false, fun _ => false, fun _ => false⟩
    ⟨⟨[⟨1, "pt", "squat", none, none⟩, ⟨2, "pt", "bench", none, none⟩], 3⟩,
      [⟨10, "pt", "cl", "old"⟩],
      [⟨0, 10, 1, 0, none⟩, ⟨1, 10, 2, 1, none⟩],
      [⟨0, 1, some "8-12", none, none, none⟩], 5⟩
    10 "pt" "cl" "new" [⟨"Bench", none, some 2, none, [⟨none, some 10, none, none⟩]⟩]
    rfl (fun _ => rfl) ⟨⟨10, "pt", "cl", "old"⟩, by simp, rfl⟩
    (by
      intro ex hex
      rcases List.mem_cons.mp hex with rfl | hex2
      · exact ⟨2, rfl, rfl⟩
      · cases hex2)
    (by decide)
  exact ⟨h.1, h.2.2.2.1⟩

/-! ## Claim C4: best-effort children, all-or-nothing parent -/

/-- Claim C4: when the top-level routine insert or update fails, the
call raises that error and performs no child writes (the store is
untouched); when the top-level write succeeds and every exercise
resolves through its catalogId, the call returns the routineId as
success for every schedule of exercise-row and set-row insert failures
— failed children are skipped, never aborting the save. -/
theorem c4_partial_write (fm : FailureModel) (st : Store) (p : UpsertParams) :
    (fm.routineWriteFails = true →
      (upsertRoutine fm st p).2 = st ∧
      (p.routineId = none →
        (upsertRoutine fm st p).1 = .error "Routine creation failed") ∧
      (∀ rid0, p.routineId = some rid0 →
        (upsertRoutine fm st p).1 = .error "Routine update failed")) ∧
    (fm.routineWriteFails = false →
      (∀ ex ∈ p.exercises, catalogHit st.catalog p.ptId ex) →
      (upsertRoutine fm st p).1
        = .ok (match p.routineId with | some rid0 => rid0 | none => st.nextId)) := by
  obtain ⟨orid, ptId, clientId, nm, exs⟩ := p
  constructor
  · intro htop
    cases orid with
    | none =>
        refine ⟨?_, ?_, ?_⟩
        · rw [upsertRoutine]
          dsimp only
          rw [htop]
          rfl
        · intro _
          rw [upsertRoutine]
          dsimp only
          rw [htop]
          rfl
        · intro rid0 hc
          cases hc
    | some rid =>
        refine ⟨?_, ?_, ?_⟩
        · rw [upsertRoutine]
          dsimp only
          rw [htop]
          rfl
        · intro hc
          cases hc
        · intro rid0 hc
          cases hc
          rw [upsertRoutine]
          dsimp only
          rw [htop]
          rfl
  · intro htop hhits
    dsimp only at hhits
    cases orid with
    | none =>
        have hstep : upsertRoutine fm st ⟨none, ptId, clientId, nm, exs⟩
            = (match insertChildren fm ptId st.nextId exs 0 0
                  ⟨st.catalog, st.routines ++ [⟨st.nextId, ptId, clientId, nm⟩],
                    st.routineExercises, st.routineSets, st.nextId + 1⟩ with
                | (.error e, st3) => (.error e, st3)
                | (.ok _, st3) => (.ok st.nextId, st3)) := by
          rw [upsertRoutine]
          dsimp only
          rw [htop]
          rfl
        obtain ⟨h1, _, _, _⟩ := insertChildren_ok fm ptId st.nextId exs 0 0
          ⟨st.catalog, st.routines ++ [⟨st.nextId, ptId, clientId, nm⟩],
            st.routineExercises, st.routineSets, st.nextId + 1⟩ hhits
        have hpair : insertChildren fm ptId st.nextId exs 0 0
            ⟨st.catalog, st.routines ++ [⟨st.nextId, ptId, clientId, nm⟩],
              st.routineExercises, st.routineSets, st.nextId + 1⟩
            = (.ok (), (insertChildren fm ptId st.nextId exs 0 0
                ⟨st.catalog, st.routines ++ [⟨st.nextId, ptId, clientId, nm⟩],
                  st.routineExercises, st.routineSets, st.nextId + 1⟩).2) := by
          rw [← h1]
        rw [hstep, hpair]
    | some rid =>
        have hstep : upsertRoutine fm st ⟨some rid, ptId, clientId, nm, exs⟩
            = (match insertChildren fm ptId rid exs 0 0
                  ⟨st.catalog,
                    st.routines.map (fun r =>
                      if r.id == rid && r.ptId == ptId then ⟨r.id, ptId, clientId, nm⟩ else r),
                    st.routineExercises.filter (fun e => !(e.routineId == rid)),
                    st.routineSets.filter (fun s2 =>
                      !((st.routineExercises.filter (fun e => e.routineId == rid)).any
                        (fun e => e.id == s2.routineExerciseId))),
                    st.nextId⟩ with
                | (.error e, st3) => (.error e, st3)
                | (.ok _, st3) => (.ok rid, st3)) := by
          rw [upsertRoutine]
          dsimp only
          rw [htop]
          rfl
        obtain ⟨h1, _, _, _⟩ := insertChildren_ok fm ptId rid exs 0 0
          ⟨st.catalog,
            st.routines.map (fun r =>
              if r.id == rid && r.ptId == ptId then ⟨r.id, ptId, clientId, nm⟩ else r),
            st.routineExercises.filter (fun e => !(e.routineId == rid)),
            st.routineSets.filter (fun s2 =>
              !((st.routineExercises.filter (fun e => e.routineId == rid)).any
                (fun e => e.id == s2.routineExerciseId))),
            st.nextId⟩ hhits
        have hpair : insertChildren fm ptId rid exs 0 0
            ⟨st.catalog,
              st.routines.map (fun r =>
                if r.id == rid && r.ptId == ptId then ⟨r.id, ptId, clientId, nm⟩ else r),
              st.routineExercises.filter (fun e => !(e.routineId == rid)),
              st.routineSets.filter (fun s2 =>
                !((st.routineExercises.filter (fun e => e.routineId == rid)).any
                  (fun e => e.id == s2.routineExerciseId))),
              st.nextId⟩
            = (.ok (), (insertChildren fm ptId rid exs 0 0
                ⟨st.catalog,
                  st.routines.map (fun r =>
                    if r.id == rid && r.ptId == ptId then ⟨r.id, ptId, clientId, nm⟩ else r),
                  st.routineExercises.filter (fun e => !(e.routineId == rid)),
                  st.routineSets.filter (fun s2 =>
                    !((st.routineExercises.filter (fun e => e.routineId == rid)).any
                      (fun e => e.id == s2.routineExerciseId))),
                  st.nextId⟩).2) := by
          rw [← h1]
        rw [hstep, hpair]

/-- Claim C4 witness: a failing top-level update leaves the store
untouched and surfaces "Routine update failed"; a create whose first of
two exercise inserts fails still returns ok with the new routine id —
both by the theorem at concrete inputs. -/
theorem c4_partial_write_witness :
    ((upsertRoutine ⟨true, fun _ => false, fun _ => false⟩
        ⟨⟨[], 0⟩, [⟨10, "pt", "cl", "old"⟩], [], [], 11⟩
        ⟨some 10, "pt", "cl", "new", []⟩).2
      = ⟨⟨[], 0⟩, [⟨10, "pt", "cl", "old"⟩], [], [], 11⟩) ∧
    ((upsertRoutine ⟨true, fun _ => false, fun _ => false⟩
        ⟨⟨[], 0⟩, [⟨10, "pt", "cl", "old"⟩], [], [], 11⟩
        ⟨some 10, "pt", "cl", "new", []⟩).1 = .error "Routine update failed") ∧
    ((upsertRoutine ⟨false, fun i => i == 0, fun _ => false⟩
        ⟨⟨[⟨1, "pt", "squat", none, none⟩], 2⟩, [], [], [], 0⟩
        ⟨none, "pt", "cl", "r",
          [⟨"A", none, some 1, none, []⟩, ⟨"B", none, some 1, none, []⟩]⟩).1 = .ok 0) := by
  have ha := (c4_partial_write ⟨true, fun _ => false, fun _ => false⟩
    ⟨⟨[], 0⟩, [⟨10, "pt", "cl", "old"⟩], [], [], 11⟩
    ⟨some 10, "pt", "cl", "new", []⟩).1 rfl
  have hb := (c4_partial_write ⟨false, fun i => i == 0, fun _ => false⟩
    ⟨⟨[⟨1, "pt", "squat", none, none⟩], 2⟩, [], [], [], 0⟩
    ⟨none, "pt", "cl", "r",
      [⟨"A", none, some 1, none, []⟩, ⟨"B", none, some 1, none, []⟩]⟩).2 rfl
    (by
      intro ex hex
      rcases List.mem_cons.mp hex with rfl | hex2
      · exact ⟨1, rfl, rfl⟩
      rcases List.mem_cons.mp hex2 with rfl | hex3
      · exact ⟨1, rfl, rfl⟩
      · cases hex3)
  exact ⟨ha.1, ha.2.2 10 rfl, hb⟩

/-! ## Claim C9: health-alert correlation -/

/-- Claim C9: with health logs ordered most-recent-first and distinct
event ids, every calendar event of type "session" starting within
[now, now + 15 minutes] and linked to a client yields no alert when the
client has no ACUTE/LINGERING log, and exactly one alert otherwise; the
alert carries an active log of that client whose loggedAt bounds every
other active log — the most recently logged one. -/
theorem c9_health_alerts (events : List CalendarEvent) (healthLogs : List HealthLog)
    (profiles : List (String × String)) (now : Int)
    (hsorted : healthLogs.Pairwise (fun a b => b.loggedAt ≤ a.loggedAt))
    (hids : events.Pairwise (fun u v => u.id ≠ v.id)) :
    ∀ e ∈ events, e.eventType = "session" →
      now ≤ e.startAt → e.startAt ≤ now + 15 * 60 * 1000 →
      ∀ cid, e.clientId = some cid →
      ((∀ l ∈ healthLogs, l.clientId = cid → isActiveLog l = false) →
        (correlateHealthAlerts events healthLogs profiles now).filter
          (fun a => a.eventId == e.id) = []) ∧
      ((∃ l ∈ healthLogs, l.clientId = cid ∧ isActiveLog l = true) →
        ∃ issue, issue ∈ healthLogs ∧ issue.clientId = cid ∧ isActiveLog issue = true ∧
          (∀ l ∈ healthLogs, l.clientId = cid → isActiveLog l = true →
            l.loggedAt ≤ issue.loggedAt) ∧
          (correlateHealthAlerts events healthLogs profiles now).filter
              (fun a => a.eventId == e.id)
            = [⟨e.id, cid, clientNameOf profiles cid, e.startAt, e.endAt,
                issue.injuryTitle, issue.status⟩]) := by
  intro e he htype hts1 hts2 cid hcid
  have hup : e ∈ upcomingSessions events now := by
    rw [upcomingSessions, List.mem_filter]
    refine ⟨he, ?_⟩
    simp only [htype, Bool.and_eq_true, beq_iff_eq, decide_eq_true_eq]
    refine ⟨⟨trivial, hts1⟩, ?_⟩
    omega
  have hupids : (upcomingSessions events now).Pairwise (fun u v => u.id ≠ v.id) :=
    hids.filter _
  have hfilter := filter_alerts_eq healthLogs profiles (upcomingSessions events now)
    e hupids hup
  constructor
  · intro hnone
    have hai : activeIssueByClient healthLogs cid = none := by
      unfold activeIssueByClient clientLogs
      rw [List.find?_eq_none]
      intro l hl
      have hm := List.mem_filter.mp hl
      have heq : l.clientId = cid := by simpa using hm.2
      simp [hnone l hm.1 heq]
    have hA : alertFor healthLogs profiles e = none := by
      unfold alertFor
      rw [hcid]
      dsimp only
      rw [hai]
    rw [correlateHealthAlerts, hfilter, hA]
    rfl
  · rintro ⟨l0, hl0, hcid0, hact0⟩
    have h1 : l0 ∈ clientLogs healthLogs cid := by
      rw [clientLogs, List.mem_filter]
      exact ⟨hl0, by simp [hcid0]⟩
    have h2 : ((clientLogs healthLogs cid).find? isActiveLog).isSome :=
      List.find?_isSome.mpr ⟨l0, h1, hact0⟩
    obtain ⟨issue, hissue⟩ := Option.isSome_iff_exists.mp h2
    have hmem : issue ∈ clientLogs healthLogs cid := List.mem_of_find?_eq_some hissue
    have hmem2 := List.mem_filter.mp hmem
    have hcli : issue.clientId = cid := by simpa using hmem2.2
    have hacti : isActiveLog issue = true := List.find?_some hissue
    have hsorted2 : (clientLogs healthLogs cid).Pairwise
        (fun a b => b.loggedAt ≤ a.loggedAt) := hsorted.filter _
    have hmax0 := find?_max_sorted (clientLogs healthLogs cid) hsorted2 issue hissue
    refine ⟨issue, hmem2.1, hcli, hacti, ?_, ?_⟩
    · intro l hl hclid hactl
      refine hmax0 l ?_ hactl
      rw [clientLogs, List.mem_filter]
      exact ⟨hl, by simp [hclid]⟩
    · have hA : alertFor healthLogs profiles e
          = some ⟨e.id, cid, clientNameOf profiles cid, e.startAt, e.endAt,
              issue.injuryTitle, issue.status⟩ := by
        unfold alertFor
        rw [hcid]
        dsimp only
        rw [show activeIssueByClient healthLogs cid = some issue from hissue]
      rw [correlateHealthAlerts, hfilter, hA]
      rfl

/-- Claim C9 witness: one session event 10 minutes out for client c1
who has one ACUTE log produces exactly one alert carrying that log,
obtained by the theorem at those inputs. -/
theorem c9_health_alerts_witness :
    (correlateHealthAlerts [⟨1, "Session", some "c1", 600000, 3600000, "session"⟩]
        [⟨1, "c1", "Sprained ankle", none, "ACUTE", 100, none⟩]
        [("c1", "Casey")] 0).filter (fun a => a.eventId == 1)
      = [⟨1, "c1", "Casey", 600000, 3600000, "Sprained ankle", "ACUTE"⟩] := by
  obtain ⟨issue, hmem, hcli, hact, hmax, heq⟩ :=
    (c9_health_alerts [⟨1, "Session", some "c1", 600000, 3600000, "session"⟩]
      [⟨1, "c1", "Sprained ankle", none, "ACUTE", 100, none⟩]
      [("c1", "Casey")] 0 (by simp) (by simp)
      ⟨1, "Session", some "c1", 600000, 3600000, "session"⟩
      (List.mem_cons_self _ _) rfl (by decide) (by decide) "c1" rfl).2
      ⟨⟨1, "c1", "Sprained ankle", none, "ACUTE", 100, none⟩, by simp, rfl, rfl⟩
  have hiss : issue = ⟨1, "c1", "Sprained ankle", none, "ACUTE", 100, none⟩ := by
    simpa using hmem
  rw [hiss] at heq
  exact heq

end FitnessPwa
